import Mathlib

/-!
Shallow embedding of the Payment-System repository
(`src/pages/Dashboard.tsx`, `src/pages/Trabalhos.tsx`,
`supabase/migrations/...sql`).

The four database relations (`pessoas`, `trabalhos`, `pagamentos_semanais`,
`historico_pagamentos`) are modelled as lists of records; monetary values
(`DECIMAL(10,2)`) as `Int`, integer columns (`posicao`, `prioridade`) as
`Int`, row ids as `Nat`.

Each handler of the React components is embedded as a function on the
database state.  Storage-level failures are modelled by a fault oracle,
a `List Bool` consumed one entry per primitive storage operation
(select / insert / update / delete / rpc): `true` means the operation
fails (does not commit), `false` (and an exhausted oracle) means it
succeeds.  Handlers mirror the source's error handling exactly: an
operation whose `error` field the source checks (and `throw`s on) aborts
the handler into its `catch` block, while an `await`ed operation whose
result is not inspected lets the handler continue even when it failed.

The three Supabase RPC functions called from `Dashboard.tsx`
(`preencher_slots_pagamento`, `atualizar_valor_pago`,
`aprovar_pagamentos_semanais`) are not in the repository (the generated
`types.ts` has an empty `Functions` section); they are modelled from the
spec, as indicated by their doc comments.
-/

/-- Row of `public.pessoas`. -/
structure Pessoa where
  id : Nat
  nome : String
  funcao : String
  deriving Repr, DecidableEq

/-- Row of `public.trabalhos`. -/
structure Trabalho where
  id : Nat
  pessoa_id : Nat
  descricao : String
  valor_total : Int
  valor_pago : Int
  concluido : Bool
  prioridade : Int
  deriving Repr, DecidableEq

/-- Row of `public.pagamentos_semanais` (a board slot). -/
structure PagamentoSemanal where
  id : Nat
  trabalho_id : Nat
  pessoa_nome : String
  pessoa_funcao : String
  descricao_trabalho : String
  valor : Int
  posicao : Int
  deriving Repr, DecidableEq

/-- Row of `public.historico_pagamentos`. -/
structure HistoricoPagamento where
  pessoa_id : Nat
  trabalho_id : Nat
  pessoa_nome : String
  pessoa_funcao : String
  descricao_trabalho : String
  valor : Int
  deriving Repr, DecidableEq

/-- The persisted database state. -/
structure DB where
  pessoas : List Pessoa
  trabalhos : List Trabalho
  pagamentos_semanais : List PagamentoSemanal
  historico_pagamentos : List HistoricoPagamento
  deriving Repr, DecidableEq

/-- Error kinds surfaced by the handlers (§7 of the design). -/
inductive DbError where
  | emptyBoard
  | notFound
  | storage
  deriving Repr, DecidableEq

/-- Consume one entry of the fault oracle.  An exhausted oracle means
every remaining storage operation succeeds. -/
def takeFault : List Bool → Bool × List Bool
  | [] => (false, [])
  | b :: rest => (b, rest)

/-- Result of running one handler: the outcome reported to the user
(`none` = success toast), the database afterwards, and the rest of the
fault oracle. -/
structure Outcome where
  err : Option DbError
  db : DB
  fs : List Bool
  deriving Repr, DecidableEq

namespace Dashboard

/-- Embedding of `loadSlots` (Dashboard.tsx lines 130-152): the query result is
iterated with `forEach`, assigning each row whose `posicao` lies in
`0..9` into a 10-entry array initialised with `null`; a later row with
the same `posicao` overwrites an earlier one.  `assignSlot` is the
`forEach` body, `loadSlots` the whole iteration. -/
def assignSlot (acc : List (Option PagamentoSemanal)) (item : PagamentoSemanal) :
    List (Option PagamentoSemanal) :=
  if 0 ≤ item.posicao ∧ item.posicao < 10 then
    acc.set item.posicao.toNat (some item)
  else acc

def loadSlots (rows : List PagamentoSemanal) : List (Option PagamentoSemanal) :=
  rows.foldl assignSlot (List.replicate 10 none)

/-- Insertion of one slot row into a list sorted by `posicao`
(ascending), keeping the insertion stable. -/
def insertByPosicao (s : PagamentoSemanal) : List PagamentoSemanal → List PagamentoSemanal
  | [] => [s]
  | t :: rest => if s.posicao < t.posicao then s :: t :: rest else t :: insertByPosicao s rest

/-- The `order("posicao", { ascending: true })` of the `loadSlots`
query, as a stable insertion sort. -/
def sortByPosicao (rows : List PagamentoSemanal) : List PagamentoSemanal :=
  rows.foldr insertByPosicao []

/-- The component's `slots` state after `loadSlots`. -/
def slotsState (db : DB) : List (Option PagamentoSemanal) :=
  loadSlots (sortByPosicao db.pagamentos_semanais)

/-- The expression `slots.filter((s) => s !== null)` — the occupied slots, in board
order. -/
def filledSlots (db : DB) : List PagamentoSemanal :=
  (slotsState db).filterMap id

/-- Embedding of `handleRemove` (Dashboard.tsx lines 206-218): delete the
`pagamentos_semanais` row with the given id; the `error` field is
checked, so a storage failure leaves the row in place and is reported
(caught and toasted). -/
def handleRemove (db : DB) (id : Nat) (fs : List Bool) : Outcome :=
  let p := takeFault fs
  if p.1 then ⟨some .storage, db, p.2⟩
  else
    ⟨none,
      { db with pagamentos_semanais := db.pagamentos_semanais.filter (fun s => s.id != id) },
      p.2⟩

/-- The per-row effect of adding `v` to `valor_pago` of the trabalho
with id `tid` and recomputing `concluido` (spec §4.4 step 3). -/
def applyPago (tid : Nat) (v : Int) (t : Trabalho) : Trabalho :=
  if t.id = tid then
    { t with valor_pago := t.valor_pago + v,
             concluido := decide (t.valor_pago + v ≥ t.valor_total) }
  else t

/-- Modelled from the spec: the Supabase function `atualizar_valor_pago`
is declared nowhere under `src/` (the generated `types.ts` has an empty
`Functions` section).  Per §4.4 step 3 it increases the work item's
`valor_pago` by the argument `p_valor_pago` and marks the item
`concluido` when `paid >= total`, as one storage operation. -/
def atualizar_valor_pago (db : DB) (p_trabalho_id : Nat) (p_valor_pago : Int) : DB :=
  { db with trabalhos := db.trabalhos.map (applyPago p_trabalho_id p_valor_pago) }

/-- Embedding of `handlePayManually` (Dashboard.tsx lines 220-257).  Step order as in
the source: (1) select the trabalho's `pessoa_id` (`throw` when absent),
(2) insert the `historico_pagamentos` row — the result of this `await`
is NOT inspected, so a failed insert does not abort the handler,
(3) call the `atualizar_valor_pago` RPC — `rpcError` is checked and
thrown, aborting into the catch block WITHOUT undoing step 2,
(4) `handleRemove(slot.id)` — which swallows its own failure, so the
handler reports success even when the slot row survives. -/
def handlePayManually (db : DB) (slot : PagamentoSemanal) (fs : List Bool) : Outcome :=
  let p0 := takeFault fs
  let trabalho := if p0.1 then none else db.trabalhos.find? (fun t => t.id == slot.trabalho_id)
  match trabalho with
  | none => ⟨some .notFound, db, p0.2⟩
  | some tr =>
    let p1 := takeFault p0.2
    let db1 :=
      if p1.1 then db
      else { db with historico_pagamentos := db.historico_pagamentos ++
              [⟨tr.pessoa_id, slot.trabalho_id, slot.pessoa_nome, slot.pessoa_funcao,
                slot.descricao_trabalho, slot.valor⟩] }
    let p2 := takeFault p1.2
    if p2.1 then ⟨some .storage, db1, p2.2⟩
    else
      let db2 := atualizar_valor_pago db1 slot.trabalho_id slot.valor
      let o3 := handleRemove db2 slot.id p2.2
      ⟨none, o3.db, o3.fs⟩

/-- The history row recorded when a slot is settled: the `pessoa_id` is
resolved from the bound trabalho, the remaining fields are the slot's
denormalized copies. -/
def histEntryFor (db : DB) (slot : PagamentoSemanal) : HistoricoPagamento :=
  { pessoa_id :=
      ((db.trabalhos.find? (fun t => t.id == slot.trabalho_id)).map (fun t => t.pessoa_id)).getD 0,
    trabalho_id := slot.trabalho_id,
    pessoa_nome := slot.pessoa_nome,
    pessoa_funcao := slot.pessoa_funcao,
    descricao_trabalho := slot.descricao_trabalho,
    valor := slot.valor }

/-- One slot's settlement effect inside the bulk-approval transaction:
append its history row and add its amount to the bound trabalho. -/
def settleStep (db : DB) (slot : PagamentoSemanal) : DB :=
  { db with
    historico_pagamentos := db.historico_pagamentos ++ [histEntryFor db slot],
    trabalhos := db.trabalhos.map (applyPago slot.trabalho_id slot.valor) }

/-- Modelled from the spec: the Supabase function
`aprovar_pagamentos_semanais` is not under `src/`.  Per §4.4 it is one
atomic transaction that, for every occupied slot, appends the history
row and applies the balance increase / completion check, then clears
the board; any referential inconsistency (a slot pointing at a deleted
trabalho, §4.4 failure semantics) aborts the whole unit with no
effect. -/
def aprovar_pagamentos_semanais (db : DB) : Option DbError × DB :=
  if db.pagamentos_semanais.all
      (fun s => (db.trabalhos.find? (fun t => t.id == s.trabalho_id)).isSome) then
    let db1 := db.pagamentos_semanais.foldl settleStep db
    (none, { db1 with pagamentos_semanais := [] })
  else (some .notFound, db)

/-- Embedding of `handleApprove` (Dashboard.tsx lines 259-284, current version): an
empty board is reported without touching storage; otherwise the single
`aprovar_pagamentos_semanais` RPC performs the whole settlement (its
`error` is checked and thrown).  The subsequent `loadSlots` is a pure
read and the `setTimeout(fillEmptySlots, 500)` refill is a separate,
fire-and-forget operation, modelled by `fillEmptySlots` below. -/
def handleApprove (db : DB) (fs : List Bool) : Outcome :=
  if (filledSlots db).length = 0 then ⟨some .emptyBoard, db, fs⟩
  else
    let p := takeFault fs
    if p.1 then ⟨some .storage, db, p.2⟩
    else
      match aprovar_pagamentos_semanais db with
      | (some e, db1) => ⟨some e, db1, p.2⟩
      | (none, db1) => ⟨none, db1, p.2⟩

/-- The per-row effect of the legacy bulk-approval `update`: it writes
the values computed on the client (`valor_pago = novoValorPago`,
`concluido`) into every row matching the id. -/
def setValores (sid : Nat) (novo : Int) (conc : Bool) (t : Trabalho) : Trabalho :=
  if t.id = sid then { t with valor_pago := novo, concluido := conc } else t

/-- The per-slot loop of the legacy `handleApprove` (Dashboard.tsx lines
384-417).  None of the four storage operations per slot has its `error`
field inspected, so a failed operation is silently skipped and the loop
continues.  A failed (or empty) `pessoa_id` select makes the following
insert violate the `NOT NULL` constraint on
`historico_pagamentos.pessoa_id`, so that insert does not commit
either. -/
def approveLoopLegacy (db : DB) (slots : List PagamentoSemanal) (fs : List Bool) :
    DB × List Bool :=
  match slots with
  | [] => (db, fs)
  | slot :: rest =>
    let pa := takeFault fs
    let pid := if pa.1 then none
      else (db.trabalhos.find? (fun t => t.id == slot.trabalho_id)).map (fun t => t.pessoa_id)
    let pb := takeFault pa.2
    let dbB := match pid with
      | some p =>
        if pb.1 then db
        else { db with historico_pagamentos := db.historico_pagamentos ++
                [⟨p, slot.trabalho_id, slot.pessoa_nome, slot.pessoa_funcao,
                  slot.descricao_trabalho, slot.valor⟩] }
      | none => db
    let pc := takeFault pb.2
    let tr := if pc.1 then none else dbB.trabalhos.find? (fun t => t.id == slot.trabalho_id)
    match tr with
    | some t =>
      let pd := takeFault pc.2
      let novo := t.valor_pago + slot.valor
      let conc := decide (novo ≥ t.valor_total)
      let dbD :=
        if pd.1 then dbB
        else { dbB with trabalhos := dbB.trabalhos.map (setValores slot.trabalho_id novo conc) }
      approveLoopLegacy dbD rest pd.2
    | none => approveLoopLegacy dbB rest pc.2

/-- The legacy `handleApprove` (Dashboard.tsx lines 373-433): a
sequential per-slot loop followed by
`delete().neq("id", "00000000-0000-0000-0000-000000000000")` — which
removes every slot row whose id differs from the all-zero uuid
(modelled as the id 0).  The `error` of the delete is not inspected
either, so the handler always reports success. -/
def handleApproveLegacy (db : DB) (fs : List Bool) : Outcome :=
  let filled := filledSlots db
  if filled.length = 0 then ⟨some .emptyBoard, db, fs⟩
  else
    let r := approveLoopLegacy db filled fs
    let pe := takeFault r.2
    let db2 :=
      if pe.1 then r.1
      else { r.1 with pagamentos_semanais := r.1.pagamentos_semanais.filter (fun s => s.id == 0) }
    ⟨none, db2, pe.2⟩

end Dashboard

/-- Stable insertion of a trabalho into a list ordered by `prioridade`
ascending. -/
def insertByPrioridade (t : Trabalho) : List Trabalho → List Trabalho
  | [] => [t]
  | u :: rest =>
    if t.prioridade < u.prioridade then t :: u :: rest else u :: insertByPrioridade t rest

/-- The query clause `order("prioridade", ascending)` as an insertion sort. -/
def sortByPrioridade (l : List Trabalho) : List Trabalho :=
  l.foldr insertByPrioridade []

namespace Dashboard

/-- A fresh `pagamentos_semanais` id, larger than every existing one. -/
def freshSlotId (db : DB) : Nat :=
  (db.pagamentos_semanais.map (fun s => s.id)).foldl max 0 + 1

/-- The board positions in `0..9` not occupied by any stored slot row,
in ascending order. -/
def emptyPositions (db : DB) : List Nat :=
  (List.range 10).filter (fun i => db.pagamentos_semanais.all (fun s => s.posicao != (i : Int)))

/-- The board slot created for trabalho `t` at position `pos`: the
settlement amount is the item's full remaining balance at fill time and
the display fields are denormalized copies captured now (spec §3,
§4.3). -/
def mkSlot (db : DB) (idv pos : Nat) (t : Trabalho) : PagamentoSemanal :=
  let p := db.pessoas.find? (fun q => q.id == t.pessoa_id)
  { id := idv,
    trabalho_id := t.id,
    pessoa_nome := ((p.map (fun q => q.nome)).getD ""),
    pessoa_funcao := ((p.map (fun q => q.funcao)).getD ""),
    descricao_trabalho := t.descricao,
    valor := t.valor_total - t.valor_pago,
    posicao := (pos : Int) }

/-- The backlog as consumed by Auto-Fill: pending (not `concluido`)
trabalhos not already bound to a slot, ordered by `prioridade`
ascending (lowest rank = most urgent first, spec §4.1, §4.3). -/
def backlogCandidates (db : DB) : List Trabalho :=
  let slotted := db.pagamentos_semanais.map (fun s => s.trabalho_id)
  sortByPrioridade (db.trabalhos.filter (fun t => (!t.concluido) && (!(slotted.contains t.id))))

/-- The slots Auto-Fill creates: one for each empty position, pulling
the top of the backlog, until positions or candidates run out. -/
def newSlotsFor (db : DB) : List PagamentoSemanal :=
  let empties := emptyPositions db
  let chosen := (backlogCandidates db).take empties.length
  let base := freshSlotId db
  List.zipWith (fun pos t => mkSlot db (base + pos) pos t) empties chosen

/-- Modelled from the spec: the Supabase function
`preencher_slots_pagamento` is not under `src/`.  Per §4.3 it pulls
pending (not `concluido`) trabalhos not already bound to a slot from
the backlog, lowest `prioridade` first, and creates a slot in each
empty board position until the board is full or the backlog is
exhausted; each new slot snapshots the item's full remaining balance
`valor_total - valor_pago`. -/
def preencher_slots_pagamento (db : DB) : DB :=
  { db with pagamentos_semanais := db.pagamentos_semanais ++ newSlotsFor db }

/-- Embedding of `fillEmptySlots` (Dashboard.tsx lines 154-167): one RPC call whose
`error` is checked; failure is reported with no state change. -/
def fillEmptySlots (db : DB) (fs : List Bool) : Outcome :=
  let p := takeFault fs
  if p.1 then ⟨some .storage, db, p.2⟩
  else ⟨none, preencher_slots_pagamento db, p.2⟩

end Dashboard

/-- dnd-kit's `arrayMove`: remove the element at `fromIdx` and insert it
at `toIdx` of the shortened array. -/
def arrayMove {α : Type} (l : List α) (fromIdx toIdx : Nat) : List α :=
  match l.get? fromIdx with
  | none => l
  | some x => (l.eraseIdx fromIdx).insertIdx toIdx x

namespace Dashboard

/-- The position updates built by the board `handleDragEnd`
(Dashboard.tsx lines 183-189): each non-null entry of the reordered
10-array is mapped to `{ id, posicao: index }`. -/
def posUpdates (reordered : List (Option PagamentoSemanal)) : List (Nat × Int) :=
  (reordered.enum).filterMap (fun p => p.2.map (fun s => (s.id, (p.1 : Int))))

/-- Apply `upsert` position updates; every id in the updates comes from
the loaded board view, hence exists among the rows, so the upsert acts
as an update. -/
def applyPosUpdates (rows : List PagamentoSemanal) (updates : List (Nat × Int)) :
    List PagamentoSemanal :=
  updates.foldl
    (fun acc u => acc.map (fun s => if s.id == u.1 then { s with posicao := u.2 } else s))
    rows

/-- Embedding of the board `handleDragEnd` (Dashboard.tsx lines 169-204): resolve
both dragged ids in the `slots` state, `arrayMove`, then one `upsert`
of all new positions (its `error` is checked; on failure the state is
reloaded unchanged). -/
def handleDragEnd (db : DB) (activeId overId : Nat) (fs : List Bool) : Outcome :=
  if activeId == overId then ⟨none, db, fs⟩
  else
    let slots := slotsState db
    let oldIndex := slots.findIdx? (fun s => (s.map (fun x => x.id)).getD 0 == activeId)
    let newIndex := slots.findIdx? (fun s => (s.map (fun x => x.id)).getD 0 == overId)
    match oldIndex, newIndex with
    | some oi, some ni =>
      let reordered := arrayMove slots oi ni
      let updates := posUpdates reordered
      let p := takeFault fs
      if p.1 then ⟨some .storage, db, p.2⟩
      else
        ⟨none,
          { db with pagamentos_semanais := applyPosUpdates db.pagamentos_semanais updates },
          p.2⟩
    | _, _ => ⟨none, db, fs⟩

end Dashboard

namespace Trabalhos

/-- Embedding of `loadData` (Trabalhos.tsx lines 114-146): the component's
`trabalhos` state is the pending set
(`.eq("concluido", false).order("prioridade", { ascending: true })`). -/
def loadData (db : DB) : List Trabalho :=
  sortByPrioridade (db.trabalhos.filter (fun t => !t.concluido))

/-- The priority updates built by the backlog `handleDragEnd`
(Trabalhos.tsx lines 197-200): every item of the reordered pending list
is mapped to `{ id, prioridade: index }`. -/
def prioUpdates (reordered : List Trabalho) : List (Nat × Int) :=
  (reordered.enum).map (fun p => (p.2.id, (p.1 : Int)))

/-- Apply `upsert` priority updates; every id comes from the loaded
pending list, hence exists among the rows, so the upsert acts as an
update. -/
def applyPrioUpdates (rows : List Trabalho) (updates : List (Nat × Int)) : List Trabalho :=
  updates.foldl
    (fun acc u => acc.map (fun t => if t.id == u.1 then { t with prioridade := u.2 } else t))
    rows

/-- Embedding of the backlog `handleDragEnd` (Trabalhos.tsx lines 182-215): resolve
both dragged ids in the pending list, `arrayMove`, then one `upsert`
assigning `prioridade := index` to every pending item (its `error` is
checked; on failure the state is reloaded unchanged). -/
def handleDragEnd (db : DB) (activeId overId : Nat) (fs : List Bool) : Outcome :=
  if activeId == overId then ⟨none, db, fs⟩
  else
    let trabalhos := loadData db
    let oldIndex := trabalhos.findIdx? (fun t => t.id == activeId)
    let newIndex := trabalhos.findIdx? (fun t => t.id == overId)
    match oldIndex, newIndex with
    | some oi, some ni =>
      let reordered := arrayMove trabalhos oi ni
      let updates := prioUpdates reordered
      let p := takeFault fs
      if p.1 then ⟨some .storage, db, p.2⟩
      else ⟨none, { db with trabalhos := applyPrioUpdates db.trabalhos updates }, p.2⟩
    | _, _ => ⟨none, db, fs⟩

end Trabalhos

/-- Sum of the history amounts referencing the trabalho `tid`. -/
def sumFor (tid : Nat) (h : List HistoricoPagamento) : Int :=
  ((h.filter (fun e => e.trabalho_id == tid)).map (fun e => e.valor)).sum

/-- The reconciliation invariant (spec §3, §8): every trabalho's
`valor_pago` equals the sum of the history amounts referencing it. -/
def Conservation (db : DB) : Prop :=
  ∀ t ∈ db.trabalhos, t.valor_pago = sumFor t.id db.historico_pagamentos

instance (db : DB) : Decidable (Conservation db) := by
  unfold Conservation; infer_instance

/-- The operations an operator can trigger on the scheduler and
settlement engine. -/
inductive Op where
  | payManually (slotId : Nat)
  | approve
  | approveLegacy
  | removeSlot (id : Nat)
  | autoFill
  | reorderSlots (activeId overId : Nat)
  | reorderBacklog (activeId overId : Nat)
  deriving Repr, DecidableEq

/-- Execute one operation with every storage primitive succeeding (the
empty fault oracle).  A manual payment is issued for a slot currently
shown on the board (the UI passes the rendered slot object to
`handlePayManually`). -/
def applyOp (db : DB) : Op → DB
  | .payManually slotId =>
    match (Dashboard.filledSlots db).find? (fun s => s.id == slotId) with
    | some slot => (Dashboard.handlePayManually db slot []).db
    | none => db
  | .approve => (Dashboard.handleApprove db []).db
  | .approveLegacy => (Dashboard.handleApproveLegacy db []).db
  | .removeSlot id => (Dashboard.handleRemove db id []).db
  | .autoFill => (Dashboard.fillEmptySlots db []).db
  | .reorderSlots a b => (Dashboard.handleDragEnd db a b []).db
  | .reorderBacklog a b => (Trabalhos.handleDragEnd db a b []).db

/-- Run a sequence of fault-free operations. -/
def runOps (db : DB) : List Op → DB
  | [] => db
  | o :: rest => runOps (applyOp db o) rest

/-- Default row used with `List.getD` when indexing `trabalhos`. -/
def defaultTrabalho : Trabalho := ⟨0, 0, "", 0, 0, false, 0⟩

/-- Sum of the snapshotted amounts of the slots bound to trabalho
`tid`. -/
def sumSlots (tid : Nat) (slots : List PagamentoSemanal) : Int :=
  ((slots.filter (fun s => s.trabalho_id == tid)).map (fun s => s.valor)).sum

/-- Sample person. -/
def pessoaAna : Pessoa := ⟨1, "Ana", "Dev"⟩

/-- Sample work item: total 100, nothing paid yet. -/
def trabalhoX : Trabalho := ⟨1, 1, "Projeto X", 100, 0, false, 0⟩

/-- Sample board slot bound to `trabalhoX`, snapshotted at its full
remaining balance. -/
def slotX : PagamentoSemanal := ⟨1, 1, "Ana", "Dev", "Projeto X", 100, 0⟩

/-- Second sample slot bound to `trabalhoX`. -/
def slotY : PagamentoSemanal := ⟨2, 1, "Ana", "Dev", "Projeto X", 30, 1⟩

/-- Sample database: one person, one work item, one occupied slot, no
history. -/
def dbX : DB := ⟨[pessoaAna], [trabalhoX], [slotX], []⟩

/-- Sample database with two occupied slots. -/
def dbY : DB := ⟨[pessoaAna], [trabalhoX], [slotX, slotY], []⟩

/-- The last row among `rows` (in iteration order) whose `posicao`
equals `i` — the row `loadSlots` ends up displaying at board position
`i`. -/
def lastAt (i : Nat) : List PagamentoSemanal → Option PagamentoSemanal
  | [] => none
  | r :: rest =>
    match lastAt i rest with
    | some x => some x
    | none => if r.posicao == (i : Int) then some r else none

/-- Positions of the occupied slots of a board view, in board order. -/
def occupiedPositions (view : List (Option PagamentoSemanal)) : List Int :=
  (view.filterMap id).map (fun s => s.posicao)

/-- A second slot row stored at the same position 0 as `slotX`. -/
def slotDup : PagamentoSemanal := ⟨3, 1, "Ana", "Dev", "Projeto X", 40, 0⟩

/-- A malformed slot row with position 12, outside the board. -/
def slotBad : PagamentoSemanal := ⟨4, 1, "Ana", "Dev", "Projeto X", 10, 12⟩

/-- The effect of a whole `upsert` update list on one trabalho row
(the row is rewritten by each update whose id matches; ids never
change, so the last matching update wins). -/
def updAll (us : List (Nat × Int)) (t : Trabalho) : Trabalho :=
  us.foldl (fun acc u => if acc.id == u.1 then { acc with prioridade := u.2 } else acc) t

/-- A pending list re-ranked by position: the item at index `k` gets
`prioridade = k` — the write set of the backlog `handleDragEnd`. -/
def withRanks (l : List Trabalho) : List Trabalho :=
  l.enum.map (fun p => { p.2 with prioridade := (p.1 : Int) })

/-- Second sample work item, backlog rank 1. -/
def trabalhoB : Trabalho := ⟨2, 1, "Projeto Y", 50, 0, false, 1⟩

/-- Third sample work item, backlog rank 2. -/
def trabalhoC : Trabalho := ⟨3, 1, "Projeto Z", 70, 0, false, 2⟩

/-- Sample database with a three-item backlog and an empty board. -/
def dbZ : DB := ⟨[pessoaAna], [trabalhoX, trabalhoB, trabalhoC], [], []⟩

/-!  ##  Theorems  -/

/-- C5: approving a board with zero occupied slots fails with
`EmptyBoardError`, reported synchronously to the caller, and causes no
state change — in both the current RPC-based `handleApprove` and the
legacy loop version (both guard on `filledSlots.length === 0` before
touching storage). -/
theorem C5_empty_board_rejected (db : DB) (fs : List Bool)
    (h : (Dashboard.filledSlots db).length = 0) :
    Dashboard.handleApprove db fs = ⟨some DbError.emptyBoard, db, fs⟩ ∧
    Dashboard.handleApproveLegacy db fs = ⟨some DbError.emptyBoard, db, fs⟩ := by
  constructor
  · simp [Dashboard.handleApprove, h]
  · simp [Dashboard.handleApproveLegacy, h]

/-- Witness for C5 at the empty database. -/
theorem C5_witness :
    (Dashboard.filledSlots ⟨[], [], [], []⟩).length = 0 ∧
    Dashboard.handleApprove ⟨[], [], [], []⟩ [] =
      ⟨some DbError.emptyBoard, ⟨[], [], [], []⟩, []⟩ :=
  ⟨by decide, (C5_empty_board_rejected ⟨[], [], [], []⟩ [] (by decide)).1⟩

/-- C9: `handleRemove` deletes only the slot: the trabalhos (hence every
work item's paid amount and completion flag), the history, and the
people are untouched, the row with the given id is removed, and any
other slot row survives. -/
theorem C9_remove_slot_frame (db : DB) (id : Nat) :
    (Dashboard.handleRemove db id []).db.trabalhos = db.trabalhos ∧
    (Dashboard.handleRemove db id []).db.historico_pagamentos = db.historico_pagamentos ∧
    (Dashboard.handleRemove db id []).db.pessoas = db.pessoas ∧
    (Dashboard.handleRemove db id []).db.pagamentos_semanais
      = db.pagamentos_semanais.filter (fun s => s.id != id) ∧
    (∀ s ∈ db.pagamentos_semanais, s.id ≠ id →
      s ∈ (Dashboard.handleRemove db id []).db.pagamentos_semanais) := by
  refine ⟨rfl, rfl, rfl, rfl, ?_⟩
  intro s hs hne
  show s ∈ db.pagamentos_semanais.filter (fun s => s.id != id)
  exact List.mem_filter.mpr ⟨hs, by simpa using hne⟩

/-- Witness for C9: removing slot 2 of `dbY` keeps `slotX`. -/
theorem C9_witness :
    (Dashboard.handleRemove dbY 2 []).db.trabalhos = dbY.trabalhos ∧
    (Dashboard.handleRemove dbY 2 []).db.historico_pagamentos = dbY.historico_pagamentos ∧
    slotX ∈ (Dashboard.handleRemove dbY 2 []).db.pagamentos_semanais := by
  have h := C9_remove_slot_frame dbY 2
  exact ⟨h.1, h.2.1, h.2.2.2.2 slotX (by decide) (by decide)⟩

/-- C2: evaluation of `handlePayManually` at the failing input.  On the
slot `slotX` of `dbX`, with the `atualizar_valor_pago` RPC failing
(fault oracle `[false, false, true]`: select ok, insert ok, rpc fails),
the handler reports the error, the slot is not deleted and the balance
is unchanged — but the history row inserted in step 2 stays committed:
an orphan history entry, which the claim (and the source comment
"usando rpc para garantir a transação") says must not happen. -/
theorem C2_orphan_history :
    (Dashboard.handlePayManually dbX slotX [false, false, true]).err = some DbError.storage ∧
    (Dashboard.handlePayManually dbX slotX [false, false, true]).db.historico_pagamentos
      = dbX.historico_pagamentos ++ [⟨1, 1, "Ana", "Dev", "Projeto X", 100⟩] ∧
    (Dashboard.handlePayManually dbX slotX [false, false, true]).db.trabalhos = dbX.trabalhos ∧
    (Dashboard.handlePayManually dbX slotX [false, false, true]).db.pagamentos_semanais
      = dbX.pagamentos_semanais := by
  decide

/-- C1 counterexample: the legacy loop-based `handleApprove` is not
atomic.  On `dbX` (one occupied slot) with the history insert failing
mid-run (fault oracle `[false, true, false, false, false]`), the
post-failure state has no new history row yet differs from the
pre-call state (the balance update and the board clear still
committed), refuting "either every slot's payment is recorded ... or
the post-failure state equals the pre-call state exactly". -/
theorem C1_counterexample :
    (Dashboard.handleApproveLegacy dbX [false, true, false, false, false]).db.historico_pagamentos
      = dbX.historico_pagamentos ∧
    (Dashboard.handleApproveLegacy dbX [false, true, false, false, false]).db ≠ dbX := by
  decide

/-- C3 counterexample: money conservation holds in `dbX`, but after a
manual settlement whose balance update fails (history insert already
committed), the paid amount no longer equals the history sum. -/
theorem C3_counterexample :
    Conservation dbX ∧
    ¬ Conservation (Dashboard.handlePayManually dbX slotX [false, false, true]).db := by
  decide

/-- C4 counterexample: paid can exceed total.  A manual settlement of
`slotX` whose final slot delete fails (fault oracle
`[false, false, false, true]`) still reports success and leaves the
slot on the board; settling the still-displayed slot again drives
`valor_pago` to 200 over a `valor_total` of 100 — the update never
clamps to the remaining balance. -/
theorem C4_counterexample :
    (Dashboard.handlePayManually dbX slotX [false, false, false, true]).err = none ∧
    slotX ∈ (Dashboard.handlePayManually dbX slotX [false, false, false, true]).db.pagamentos_semanais ∧
    (∀ t ∈ (Dashboard.handlePayManually
        (Dashboard.handlePayManually dbX slotX [false, false, false, true]).db
        slotX []).db.trabalhos,
      t.valor_total < t.valor_pago) := by
  decide

theorem assignSlot_length (acc : List (Option PagamentoSemanal)) (r : PagamentoSemanal) :
    (Dashboard.assignSlot acc r).length = acc.length := by
  unfold Dashboard.assignSlot
  split <;> simp

theorem foldl_assignSlot_length :
    ∀ (rows : List PagamentoSemanal) (acc : List (Option PagamentoSemanal)),
    (rows.foldl Dashboard.assignSlot acc).length = acc.length := by
  intro rows
  induction rows with
  | nil => intro acc; rfl
  | cons r rest ih => intro acc; rw [List.foldl_cons, ih, assignSlot_length]

theorem foldl_assignSlot_getD :
    ∀ (rows : List PagamentoSemanal) (acc : List (Option PagamentoSemanal)),
    acc.length = 10 → ∀ i, i < 10 →
    (rows.foldl Dashboard.assignSlot acc).getD i none
      = match lastAt i rows with
        | some r => some r
        | none => acc.getD i none := by
  intro rows
  induction rows with
  | nil => intro acc hacc i hi; rfl
  | cons r rest ih =>
    intro acc hacc i hi
    rw [List.foldl_cons, ih (Dashboard.assignSlot acc r) (by rw [assignSlot_length]; exact hacc) i hi]
    cases hrest : lastAt i rest with
    | some x => simp [lastAt, hrest]
    | none =>
      simp only [lastAt, hrest]
      unfold Dashboard.assignSlot
      by_cases hin : 0 ≤ r.posicao ∧ r.posicao < 10
      · rw [if_pos hin]
        by_cases heq : r.posicao = (i : Int)
        · have htn : r.posicao.toNat = i := by omega
          have hbeq : (r.posicao == (i : Int)) = true := beq_iff_eq.mpr heq
          rw [htn, hbeq, List.getD, List.get?_eq_getElem?,
            List.getElem?_set_eq_of_lt (some r) (by rw [hacc]; exact hi)]
          rfl
        · have htn : r.posicao.toNat ≠ i := by omega
          have hbeq : (r.posicao == (i : Int)) = false := beq_eq_false_iff_ne.mpr heq
          rw [hbeq, List.getD, List.getD, List.get?_eq_getElem?, List.get?_eq_getElem?,
            List.getElem?_set_ne htn]
          simp
      · rw [if_neg hin]
        have hbeq : (r.posicao == (i : Int)) = false := by
          apply beq_eq_false_iff_ne.mpr
          intro heq
          apply hin
          constructor <;> omega
        rw [hbeq]
        simp

theorem loadSlots_length10 (rows : List PagamentoSemanal) :
    (Dashboard.loadSlots rows).length = 10 := by
  unfold Dashboard.loadSlots
  rw [foldl_assignSlot_length]
  simp

theorem loadSlots_getD (rows : List PagamentoSemanal) (i : Nat) (hi : i < 10) :
    (Dashboard.loadSlots rows).getD i none = lastAt i rows := by
  unfold Dashboard.loadSlots
  rw [foldl_assignSlot_getD rows (List.replicate 10 none) (by simp) i hi]
  have hrep : (List.replicate 10 (none : Option PagamentoSemanal)).getD i none = none := by
    rw [List.getD, List.get?_eq_getElem?, List.getElem?_replicate, if_pos hi]
    rfl
  cases lastAt i rows with
  | some x => rfl
  | none => exact hrep

/-- C10: the board view built by `loadSlots` always has exactly 10
entries; entry `i` holds exactly the LAST row with `posicao = i` in the
iterated (ascending-position) order — so rows with positions outside
`0..9` are silently dropped, and of several rows sharing a position
only the later one is shown.  The second conjunct instantiates this to
the component state `slotsState`, whose iteration order is the
`posicao`-ascending query order. -/
theorem C10_board_view :
    (∀ rows : List PagamentoSemanal,
      (Dashboard.loadSlots rows).length = 10 ∧
      ∀ i, i < 10 → (Dashboard.loadSlots rows).getD i none = lastAt i rows) ∧
    (∀ db : DB, ∀ i, i < 10 →
      (Dashboard.slotsState db).getD i none
        = lastAt i (Dashboard.sortByPosicao db.pagamentos_semanais)) :=
  ⟨fun rows => ⟨loadSlots_length10 rows, fun i hi => loadSlots_getD rows i hi⟩,
   fun _ i hi => loadSlots_getD _ i hi⟩

/-- Witness for C10: with a duplicate of position 0 and a malformed
position 12 in the stored rows, the view keeps 10 entries and shows the
later duplicate at position 0. -/
theorem C10_witness :
    (Dashboard.loadSlots [slotX, slotDup, slotBad]).length = 10 ∧
    (Dashboard.loadSlots [slotX, slotDup, slotBad]).getD 0 none
      = lastAt 0 [slotX, slotDup, slotBad] :=
  ⟨(C10_board_view.1 [slotX, slotDup, slotBad]).1,
   (C10_board_view.1 [slotX, slotDup, slotBad]).2 0 (by decide)⟩

theorem lastAt_posicao :
    ∀ (rows : List PagamentoSemanal) (i : Nat) (s : PagamentoSemanal),
    lastAt i rows = some s → s.posicao = (i : Int) := by
  intro rows
  induction rows with
  | nil => intro i s h; simp [lastAt] at h
  | cons r rest ih =>
    intro i s h
    unfold lastAt at h
    cases hrest : lastAt i rest with
    | some x =>
      rw [hrest] at h
      cases h
      exact ih i s hrest
    | none =>
      rw [hrest] at h
      by_cases hbeq : (r.posicao == (i : Int)) = true
      · rw [if_pos hbeq] at h
        cases h
        exact beq_iff_eq.mp hbeq
      · rw [if_neg hbeq] at h
        cases h

theorem occupiedPositions_key :
    ∀ (view : List (Option PagamentoSemanal)) (k : Int),
    (∀ (i : Nat) (s : PagamentoSemanal), view.getD i none = some s → s.posicao = k + i) →
    (occupiedPositions view).Nodup ∧
    ∀ p ∈ occupiedPositions view, k ≤ p ∧ p < k + view.length := by
  intro view
  induction view with
  | nil =>
    intro k _
    exact ⟨List.nodup_nil, by intro p hp; simp [occupiedPositions] at hp⟩
  | cons o rest ih =>
    intro k h0
    have hrest : ∀ (i : Nat) (s : PagamentoSemanal),
        rest.getD i none = some s → s.posicao = (k + 1) + i := by
      intro i s h
      have := h0 (i + 1) s h
      push_cast at this ⊢
      linarith
    obtain ⟨hnd, hbd⟩ := ih (k + 1) hrest
    cases o with
    | none =>
      have hocc : occupiedPositions (none :: rest) = occupiedPositions rest := by
        simp [occupiedPositions]
      rw [hocc]
      refine ⟨hnd, ?_⟩
      intro p hp
      obtain ⟨h1, h2⟩ := hbd p hp
      constructor
      · linarith
      · simp only [List.length_cons]
        push_cast
        linarith
    | some s =>
      have hs : s.posicao = k := by
        have := h0 0 s rfl
        simpa using this
      have hocc : occupiedPositions (some s :: rest) = s.posicao :: occupiedPositions rest := by
        simp [occupiedPositions]
      rw [hocc]
      constructor
      · refine List.Nodup.cons ?_ hnd
        intro hmem
        obtain ⟨h1, _⟩ := hbd s.posicao hmem
        rw [hs] at h1
        linarith
      · intro p hp
        rcases List.mem_cons.mp hp with heq | hmem
        · rw [heq, hs]
          constructor
          · linarith
          · simp only [List.length_cons]
            push_cast
            linarith [Int.ofNat_nonneg rest.length]
        · obtain ⟨h1, h2⟩ := hbd p hmem
          constructor
          · linarith
          · simp only [List.length_cons]
            push_cast
            linarith

/-- C6: for every list of stored rows, the board view built by
`loadSlots` has at most 10 occupied positions, every occupied position
lies in `0..9`, and no two occupied slots share a position.  Since
every board-mutating operation re-derives the displayed board through
`loadSlots`, the invariant holds in every state. -/
theorem C6_capacity (rows : List PagamentoSemanal) :
    (occupiedPositions (Dashboard.loadSlots rows)).length ≤ 10 ∧
    (∀ p ∈ occupiedPositions (Dashboard.loadSlots rows), 0 ≤ p ∧ p < 10) ∧
    (occupiedPositions (Dashboard.loadSlots rows)).Nodup := by
  have hkey : ∀ (i : Nat) (s : PagamentoSemanal),
      (Dashboard.loadSlots rows).getD i none = some s → s.posicao = 0 + i := by
    intro i s h
    by_cases hi : i < 10
    · rw [loadSlots_getD rows i hi] at h
      rw [lastAt_posicao rows i s h]
      ring
    · rw [List.getD_eq_default _ _ (by rw [loadSlots_length10]; omega)] at h
      cases h
  obtain ⟨hnd, hbd⟩ := occupiedPositions_key (Dashboard.loadSlots rows) 0 hkey
  refine ⟨?_, ?_, hnd⟩
  · calc (occupiedPositions (Dashboard.loadSlots rows)).length
        = ((Dashboard.loadSlots rows).filterMap id).length := by
          simp [occupiedPositions]
      _ ≤ (Dashboard.loadSlots rows).length := List.length_filterMap_le id _
      _ = 10 := loadSlots_length10 rows
  · intro p hp
    obtain ⟨h1, h2⟩ := hbd p hp
    rw [loadSlots_length10] at h2
    constructor
    · linarith
    · simpa using h2

/-- Witness for C6 on a concrete two-slot board. -/
theorem C6_witness :
    (occupiedPositions (Dashboard.loadSlots [slotX, slotY])).length ≤ 10 ∧
    (0 ≤ (0 : Int) ∧ (0 : Int) < 10) ∧
    (occupiedPositions (Dashboard.loadSlots [slotX, slotY])).Nodup := by
  have h := C6_capacity [slotX, slotY]
  exact ⟨h.1, h.2.1 0 (by decide), h.2.2⟩

theorem applyPago_id (tid : Nat) (v : Int) (t : Trabalho) :
    (Dashboard.applyPago tid v t).id = t.id := by
  unfold Dashboard.applyPago
  split <;> rfl

theorem applyPago_pessoa (tid : Nat) (v : Int) (t : Trabalho) :
    (Dashboard.applyPago tid v t).pessoa_id = t.pessoa_id := by
  unfold Dashboard.applyPago
  split <;> rfl

theorem applyPago_total (tid : Nat) (v : Int) (t : Trabalho) :
    (Dashboard.applyPago tid v t).valor_total = t.valor_total := by
  unfold Dashboard.applyPago
  split <;> rfl

theorem find?_map_applyPago (l : List Trabalho) (tid : Nat) (v : Int) (tid2 : Nat) :
    (l.map (Dashboard.applyPago tid v)).find? (fun t => t.id == tid2)
      = (l.find? (fun t => t.id == tid2)).map (Dashboard.applyPago tid v) := by
  rw [List.find?_map]
  have hpred : ((fun t : Trabalho => t.id == tid2) ∘ Dashboard.applyPago tid v)
      = (fun t : Trabalho => t.id == tid2) := by
    funext t
    show ((Dashboard.applyPago tid v t).id == tid2) = (t.id == tid2)
    rw [applyPago_id]
  rw [hpred]

theorem getD_map_trabalho (l : List Trabalho) (f : Trabalho → Trabalho) (i : Nat)
    (h : i < l.length) :
    (l.map f).getD i defaultTrabalho = f (l.getD i defaultTrabalho) := by
  rw [List.getD, List.getD, List.get?_eq_getElem?, List.get?_eq_getElem?, List.getElem?_map,
    List.getElem?_eq_getElem h]
  rfl

theorem histEntryFor_settleStep (db : DB) (s2 s : PagamentoSemanal) :
    Dashboard.histEntryFor (Dashboard.settleStep db s2) s = Dashboard.histEntryFor db s := by
  unfold Dashboard.histEntryFor Dashboard.settleStep
  congr 1
  rw [find?_map_applyPago, Option.map_map]
  have hfun : ((fun t : Trabalho => t.pessoa_id) ∘ Dashboard.applyPago s2.trabalho_id s2.valor)
      = (fun t : Trabalho => t.pessoa_id) :=
    funext fun t => applyPago_pessoa s2.trabalho_id s2.valor t
  rw [hfun]

theorem settleAll_pagamentos :
    ∀ (slots : List PagamentoSemanal) (db : DB),
    (List.foldl Dashboard.settleStep db slots).pagamentos_semanais = db.pagamentos_semanais := by
  intro slots
  induction slots with
  | nil => intro db; rfl
  | cons s rest ih => intro db; rw [List.foldl_cons, ih]; rfl

theorem settleAll_historico :
    ∀ (slots : List PagamentoSemanal) (db : DB),
    (List.foldl Dashboard.settleStep db slots).historico_pagamentos
      = db.historico_pagamentos ++ slots.map (Dashboard.histEntryFor db) := by
  intro slots
  induction slots with
  | nil => intro db; simp
  | cons s rest ih =>
    intro db
    rw [List.foldl_cons, ih (Dashboard.settleStep db s)]
    have hfun : Dashboard.histEntryFor (Dashboard.settleStep db s) = Dashboard.histEntryFor db :=
      funext fun s2 => histEntryFor_settleStep db s s2
    rw [hfun]
    show db.historico_pagamentos ++ [Dashboard.histEntryFor db s]
        ++ rest.map (Dashboard.histEntryFor db) = _
    rw [List.map_cons, List.append_assoc]
    rfl

theorem settleAll_trabalhos_length :
    ∀ (slots : List PagamentoSemanal) (db : DB),
    (List.foldl Dashboard.settleStep db slots).trabalhos.length = db.trabalhos.length := by
  intro slots
  induction slots with
  | nil => intro db; rfl
  | cons s rest ih =>
    intro db
    rw [List.foldl_cons, ih]
    show (db.trabalhos.map _).length = _
    rw [List.length_map]

theorem sumSlots_cons (tid : Nat) (s : PagamentoSemanal) (rest : List PagamentoSemanal) :
    sumSlots tid (s :: rest)
      = (if s.trabalho_id == tid then s.valor else 0) + sumSlots tid rest := by
  unfold sumSlots
  rw [List.filter_cons]
  by_cases h : (s.trabalho_id == tid) = true
  · rw [if_pos h, if_pos h, List.map_cons, List.sum_cons]
  · rw [if_neg h, if_neg h, zero_add]

theorem settleAll_trabalhos_getD :
    ∀ (slots : List PagamentoSemanal) (db : DB) (i : Nat), i < db.trabalhos.length →
    ((List.foldl Dashboard.settleStep db slots).trabalhos.getD i defaultTrabalho).id
      = (db.trabalhos.getD i defaultTrabalho).id ∧
    ((List.foldl Dashboard.settleStep db slots).trabalhos.getD i defaultTrabalho).valor_pago
      = (db.trabalhos.getD i defaultTrabalho).valor_pago
        + sumSlots (db.trabalhos.getD i defaultTrabalho).id slots := by
  intro slots
  induction slots with
  | nil =>
    intro db i hi
    refine ⟨rfl, ?_⟩
    show _ = _ + sumSlots _ []
    unfold sumSlots
    simp
  | cons s rest ih =>
    intro db i hi
    rw [List.foldl_cons]
    have hlen : i < (Dashboard.settleStep db s).trabalhos.length := by
      show i < (db.trabalhos.map _).length
      rw [List.length_map]
      exact hi
    obtain ⟨hid, hpaid⟩ := ih (Dashboard.settleStep db s) i hlen
    have hstep : (Dashboard.settleStep db s).trabalhos.getD i defaultTrabalho
        = Dashboard.applyPago s.trabalho_id s.valor (db.trabalhos.getD i defaultTrabalho) :=
      getD_map_trabalho db.trabalhos _ i hi
    constructor
    · rw [hid, hstep, applyPago_id]
    · rw [hpaid, hstep, applyPago_id, sumSlots_cons]
      unfold Dashboard.applyPago
      by_cases hmatch : (db.trabalhos.getD i defaultTrabalho).id = s.trabalho_id
      · have hbeq : (s.trabalho_id == (db.trabalhos.getD i defaultTrabalho).id) = true :=
          beq_iff_eq.mpr hmatch.symm
        rw [if_pos hmatch, hbeq]
        simp only [if_true]
        ring
      · have hbeq : (s.trabalho_id == (db.trabalhos.getD i defaultTrabalho).id) = false :=
          beq_eq_false_iff_ne.mpr (fun h => hmatch h.symm)
        rw [if_neg hmatch, hbeq]
        simp only [Bool.false_eq_true, if_false]
        ring

theorem aprovar_ok (db : DB)
    (h : db.pagamentos_semanais.all
      (fun s => (db.trabalhos.find? (fun t => t.id == s.trabalho_id)).isSome) = true) :
    Dashboard.aprovar_pagamentos_semanais db
      = (none, { List.foldl Dashboard.settleStep db db.pagamentos_semanais with
                  pagamentos_semanais := [] }) := by
  unfold Dashboard.aprovar_pagamentos_semanais
  rw [if_pos h]

theorem aprovar_fail (db : DB)
    (h : ¬ db.pagamentos_semanais.all
      (fun s => (db.trabalhos.find? (fun t => t.id == s.trabalho_id)).isSome) = true) :
    Dashboard.aprovar_pagamentos_semanais db = (some DbError.notFound, db) := by
  unfold Dashboard.aprovar_pagamentos_semanais
  rw [if_neg h]

/-- C1 (amended): bulk approval through the current RPC-based
`handleApprove` is atomic.  For every board state with at least one
occupied slot, either the call fails and the post-failure database
equals the pre-call database exactly (no history rows, no balance
changes, no slot deletions), or it succeeds and every stored slot's
history entry is appended (in board order), every work item's paid
amount grows by exactly the sum of the amounts of its slots, and all
slots are cleared.  (The legacy per-slot-loop implementation does NOT
have this property — see the counterexample.) -/
theorem C1_bulk_approval_atomicity (db : DB) (fs : List Bool)
    (hne : ¬ (Dashboard.filledSlots db).length = 0) :
    ((Dashboard.handleApprove db fs).err.isSome ∧ (Dashboard.handleApprove db fs).db = db) ∨
    ((Dashboard.handleApprove db fs).err = none ∧
      (Dashboard.handleApprove db fs).db.pagamentos_semanais = [] ∧
      (Dashboard.handleApprove db fs).db.historico_pagamentos
        = db.historico_pagamentos ++ db.pagamentos_semanais.map (Dashboard.histEntryFor db) ∧
      (Dashboard.handleApprove db fs).db.trabalhos.length = db.trabalhos.length ∧
      (∀ i, i < db.trabalhos.length →
        (((Dashboard.handleApprove db fs).db.trabalhos.getD i defaultTrabalho).id
          = (db.trabalhos.getD i defaultTrabalho).id) ∧
        (((Dashboard.handleApprove db fs).db.trabalhos.getD i defaultTrabalho).valor_pago
          = (db.trabalhos.getD i defaultTrabalho).valor_pago
            + sumSlots ((db.trabalhos.getD i defaultTrabalho).id) db.pagamentos_semanais))) := by
  by_cases hb : (takeFault fs).1 = true
  · left
    have happ : Dashboard.handleApprove db fs = ⟨some DbError.storage, db, (takeFault fs).2⟩ := by
      unfold Dashboard.handleApprove
      rw [if_neg hne]
      simp [hb]
    rw [happ]
    exact ⟨rfl, rfl⟩
  · have hb' : (takeFault fs).1 = false := by
      revert hb
      cases (takeFault fs).1 <;> simp
    by_cases hpre : db.pagamentos_semanais.all
        (fun s => (db.trabalhos.find? (fun t => t.id == s.trabalho_id)).isSome) = true
    · right
      have happ : Dashboard.handleApprove db fs
          = ⟨none, { List.foldl Dashboard.settleStep db db.pagamentos_semanais with
                      pagamentos_semanais := [] }, (takeFault fs).2⟩ := by
        unfold Dashboard.handleApprove
        rw [if_neg hne]
        simp [hb', aprovar_ok db hpre]
      rw [happ]
      refine ⟨rfl, rfl, ?_, ?_, ?_⟩
      · show (List.foldl Dashboard.settleStep db db.pagamentos_semanais).historico_pagamentos = _
        exact settleAll_historico db.pagamentos_semanais db
      · show (List.foldl Dashboard.settleStep db db.pagamentos_semanais).trabalhos.length = _
        exact settleAll_trabalhos_length db.pagamentos_semanais db
      · intro i hi
        exact settleAll_trabalhos_getD db.pagamentos_semanais db i hi
    · left
      have happ : Dashboard.handleApprove db fs
          = ⟨some DbError.notFound, db, (takeFault fs).2⟩ := by
        unfold Dashboard.handleApprove
        rw [if_neg hne]
        simp [hb', aprovar_fail db hpre]
      rw [happ]
      exact ⟨rfl, rfl⟩

/-- Witness for C1 at the one-slot database `dbX` with no faults. -/
theorem C1_witness :
    ((Dashboard.handleApprove dbX []).err.isSome ∧ (Dashboard.handleApprove dbX []).db = dbX) ∨
    ((Dashboard.handleApprove dbX []).err = none ∧
      (Dashboard.handleApprove dbX []).db.pagamentos_semanais = [] ∧
      (Dashboard.handleApprove dbX []).db.historico_pagamentos
        = dbX.historico_pagamentos ++ dbX.pagamentos_semanais.map (Dashboard.histEntryFor dbX) ∧
      (Dashboard.handleApprove dbX []).db.trabalhos.length = dbX.trabalhos.length ∧
      (∀ i, i < dbX.trabalhos.length →
        (((Dashboard.handleApprove dbX []).db.trabalhos.getD i defaultTrabalho).id
          = (dbX.trabalhos.getD i defaultTrabalho).id) ∧
        (((Dashboard.handleApprove dbX []).db.trabalhos.getD i defaultTrabalho).valor_pago
          = (dbX.trabalhos.getD i defaultTrabalho).valor_pago
            + sumSlots ((dbX.trabalhos.getD i defaultTrabalho).id) dbX.pagamentos_semanais))) :=
  C1_bulk_approval_atomicity dbX [] (by decide)

theorem payManually_trabalhos (db : DB) (slot : PagamentoSemanal) (fs : List Bool) :
    (Dashboard.handlePayManually db slot fs).db.trabalhos = db.trabalhos ∨
    (Dashboard.handlePayManually db slot fs).db.trabalhos
      = db.trabalhos.map (Dashboard.applyPago slot.trabalho_id slot.valor) := by
  dsimp only [Dashboard.handlePayManually, Dashboard.atualizar_valor_pago, Dashboard.handleRemove]
  split
  · exact Or.inl rfl
  · split <;> (try split) <;> (try split) <;>
      first
      | exact Or.inl rfl
      | exact Or.inr rfl

/-- C4 (amended): every balance update of a settlement keeps
`valor_total` unchanged, never decreases `valor_pago`, keeps it
non-negative (for the non-negative slot amounts the system creates),
and sets the completion flag to exactly `paid >= total`; and a manual
settlement touches each trabalho row either not at all or through
exactly this update.  The refuted part — `paid ≤ total` — fails
because the update does not clamp (see the counterexample). -/
theorem C4_balance_update_properties :
    (∀ (tid : Nat) (v : Int) (t : Trabalho), 0 ≤ v →
      (Dashboard.applyPago tid v t).valor_total = t.valor_total ∧
      t.valor_pago ≤ (Dashboard.applyPago tid v t).valor_pago ∧
      (0 ≤ t.valor_pago → 0 ≤ (Dashboard.applyPago tid v t).valor_pago)) ∧
    (∀ (tid : Nat) (v : Int) (t : Trabalho), t.id = tid →
      ((Dashboard.applyPago tid v t).concluido = true
        ↔ (Dashboard.applyPago tid v t).valor_total ≤ (Dashboard.applyPago tid v t).valor_pago)) ∧
    (∀ (db : DB) (slot : PagamentoSemanal) (fs : List Bool) (i : Nat),
      (Dashboard.handlePayManually db slot fs).db.trabalhos.getD i defaultTrabalho
        = db.trabalhos.getD i defaultTrabalho ∨
      (Dashboard.handlePayManually db slot fs).db.trabalhos.getD i defaultTrabalho
        = Dashboard.applyPago slot.trabalho_id slot.valor
            (db.trabalhos.getD i defaultTrabalho)) := by
  refine ⟨?_, ?_, ?_⟩
  · intro tid v t hv
    unfold Dashboard.applyPago
    by_cases h : t.id = tid
    · rw [if_pos h]
      exact ⟨rfl, by simp; linarith, fun hp => by simp; linarith⟩
    · rw [if_neg h]
      exact ⟨rfl, le_refl _, fun hp => hp⟩
  · intro tid v t h
    unfold Dashboard.applyPago
    rw [if_pos h]
    simp [ge_iff_le]
  · intro db slot fs i
    rcases payManually_trabalhos db slot fs with h | h
    · left
      rw [h]
    · by_cases hi : i < db.trabalhos.length
      · right
        rw [h, getD_map_trabalho db.trabalhos _ i hi]
      · left
        rw [h, List.getD_eq_default _ _ (by rw [List.length_map]; omega),
          List.getD_eq_default _ _ (by omega)]

/-- Witness for C4 at concrete inputs. -/
theorem C4_witness :
    trabalhoX.valor_pago ≤ (Dashboard.applyPago 1 5 trabalhoX).valor_pago ∧
    ((Dashboard.applyPago 1 5 trabalhoX).concluido = true
      ↔ (Dashboard.applyPago 1 5 trabalhoX).valor_total
          ≤ (Dashboard.applyPago 1 5 trabalhoX).valor_pago) ∧
    ((Dashboard.handlePayManually dbX slotX []).db.trabalhos.getD 0 defaultTrabalho
        = dbX.trabalhos.getD 0 defaultTrabalho ∨
      (Dashboard.handlePayManually dbX slotX []).db.trabalhos.getD 0 defaultTrabalho
        = Dashboard.applyPago slotX.trabalho_id slotX.valor
            (dbX.trabalhos.getD 0 defaultTrabalho)) :=
  ⟨(C4_balance_update_properties.1 1 5 trabalhoX (by decide)).2.1,
   C4_balance_update_properties.2.1 1 5 trabalhoX (by decide),
   C4_balance_update_properties.2.2 dbX slotX [] 0⟩

theorem applyPago_pago_eq (tid : Nat) (v : Int) (t : Trabalho) (h : t.id = tid) :
    (Dashboard.applyPago tid v t).valor_pago = t.valor_pago + v := by
  unfold Dashboard.applyPago
  rw [if_pos h]

theorem applyPago_eq_self (tid : Nat) (v : Int) (t : Trabalho) (h : ¬ t.id = tid) :
    Dashboard.applyPago tid v t = t := by
  unfold Dashboard.applyPago
  rw [if_neg h]

theorem sumFor_append (tid : Nat) (h1 h2 : List HistoricoPagamento) :
    sumFor tid (h1 ++ h2) = sumFor tid h1 + sumFor tid h2 := by
  unfold sumFor
  rw [List.filter_append, List.map_append, List.sum_append]

theorem sumFor_single (tid : Nat) (e : HistoricoPagamento) :
    sumFor tid [e] = if e.trabalho_id = tid then e.valor else 0 := by
  unfold sumFor
  by_cases h : e.trabalho_id = tid
  · have hb : (e.trabalho_id == tid) = true := beq_iff_eq.mpr h
    rw [if_pos h]
    simp [List.filter, hb]
  · have hb : (e.trabalho_id == tid) = false := beq_eq_false_iff_ne.mpr h
    rw [if_neg h]
    simp [List.filter, hb]

theorem conservation_settle (db : DB) (tid : Nat) (v : Int) (e : HistoricoPagamento)
    (hid : e.trabalho_id = tid) (hv : e.valor = v) (h : Conservation db) :
    Conservation { db with
      historico_pagamentos := db.historico_pagamentos ++ [e],
      trabalhos := db.trabalhos.map (Dashboard.applyPago tid v) } := by
  intro t' ht'
  obtain ⟨t, ht, rfl⟩ := List.mem_map.mp ht'
  show (Dashboard.applyPago tid v t).valor_pago
    = sumFor (Dashboard.applyPago tid v t).id (db.historico_pagamentos ++ [e])
  rw [applyPago_id, sumFor_append, sumFor_single]
  by_cases hm : t.id = tid
  · rw [applyPago_pago_eq tid v t hm, if_pos (by rw [hid, hm]), hv, h t ht]
  · rw [applyPago_eq_self tid v t hm, if_neg (by rw [hid]; exact fun hh => hm hh.symm),
      add_zero]
    exact h t ht

theorem conservation_settleStep (db : DB) (s : PagamentoSemanal) (h : Conservation db) :
    Conservation (Dashboard.settleStep db s) :=
  conservation_settle db s.trabalho_id s.valor (Dashboard.histEntryFor db s) rfl rfl h

theorem conservation_settleAll :
    ∀ (slots : List PagamentoSemanal) (db : DB), Conservation db →
    Conservation (List.foldl Dashboard.settleStep db slots) := by
  intro slots
  induction slots with
  | nil => intro db h; exact h
  | cons s rest ih =>
    intro db h
    rw [List.foldl_cons]
    exact ih (Dashboard.settleStep db s) (conservation_settleStep db s h)

theorem setValores_id (sid : Nat) (novo : Int) (conc : Bool) (t : Trabalho) :
    (Dashboard.setValores sid novo conc t).id = t.id := by
  unfold Dashboard.setValores
  split <;> rfl

theorem setValores_pago_eq (sid : Nat) (novo : Int) (conc : Bool) (t : Trabalho)
    (h : t.id = sid) : (Dashboard.setValores sid novo conc t).valor_pago = novo := by
  unfold Dashboard.setValores
  rw [if_pos h]

theorem setValores_eq_self (sid : Nat) (novo : Int) (conc : Bool) (t : Trabalho)
    (h : ¬ t.id = sid) : Dashboard.setValores sid novo conc t = t := by
  unfold Dashboard.setValores
  rw [if_neg h]

theorem conservation_legacy_update (db : DB) (slot : PagamentoSemanal) (t : Trabalho)
    (conc : Bool)
    (hfind : db.trabalhos.find? (fun u => u.id == slot.trabalho_id) = some t)
    (h : Conservation db) :
    Conservation { db with
      historico_pagamentos := db.historico_pagamentos ++
        [⟨t.pessoa_id, slot.trabalho_id, slot.pessoa_nome, slot.pessoa_funcao,
          slot.descricao_trabalho, slot.valor⟩],
      trabalhos := db.trabalhos.map
        (Dashboard.setValores slot.trabalho_id (t.valor_pago + slot.valor) conc) } := by
  have htid : t.id = slot.trabalho_id := by
    have hb := List.find?_some hfind
    simpa using hb
  have htmem : t ∈ db.trabalhos := List.mem_of_find?_eq_some hfind
  have hpt := h t htmem
  intro u' hu'
  obtain ⟨u, hu, rfl⟩ := List.mem_map.mp hu'
  show (Dashboard.setValores slot.trabalho_id (t.valor_pago + slot.valor) conc u).valor_pago
    = sumFor (Dashboard.setValores slot.trabalho_id (t.valor_pago + slot.valor) conc u).id
        (db.historico_pagamentos ++
          [⟨t.pessoa_id, slot.trabalho_id, slot.pessoa_nome, slot.pessoa_funcao,
            slot.descricao_trabalho, slot.valor⟩])
  rw [setValores_id, sumFor_append, sumFor_single]
  by_cases hm : u.id = slot.trabalho_id
  · rw [setValores_pago_eq _ _ _ _ hm, if_pos hm.symm]
    have : sumFor u.id db.historico_pagamentos = t.valor_pago := by
      rw [hm, ← htid]
      exact hpt.symm
    rw [this]
  · rw [setValores_eq_self _ _ _ _ hm, if_neg (fun hh => hm hh.symm), add_zero]
    exact h u hu

theorem conservation_loopLegacy :
    ∀ (slots : List PagamentoSemanal) (db : DB), Conservation db →
    Conservation (Dashboard.approveLoopLegacy db slots []).1 := by
  intro slots
  induction slots with
  | nil => intro db h; exact h
  | cons slot rest ih =>
    intro db h
    unfold Dashboard.approveLoopLegacy
    cases hfind : db.trabalhos.find? (fun t => t.id == slot.trabalho_id) with
    | none =>
      simp [takeFault, hfind]
      exact ih db h
    | some t =>
      simp [takeFault, hfind]
      exact ih _ (conservation_legacy_update db slot t _ hfind h)

theorem applyPrioUpdates_pago :
    ∀ (us : List (Nat × Int)) (rows : List Trabalho) (u : Trabalho),
    u ∈ Trabalhos.applyPrioUpdates rows us →
    ∃ t ∈ rows, u.id = t.id ∧ u.valor_pago = t.valor_pago := by
  intro us
  induction us with
  | nil => intro rows u hu; exact ⟨u, hu, rfl, rfl⟩
  | cons v vs ih =>
    intro rows u hu
    have hstep : Trabalhos.applyPrioUpdates rows (v :: vs)
        = Trabalhos.applyPrioUpdates
            (rows.map (fun t => if t.id == v.1 then { t with prioridade := v.2 } else t)) vs :=
      rfl
    rw [hstep] at hu
    obtain ⟨t1, ht1, hid1, hp1⟩ := ih _ u hu
    obtain ⟨t0, ht0, rfl⟩ := List.mem_map.mp ht1
    refine ⟨t0, ht0, ?_, ?_⟩
    · rw [hid1]
      split <;> rfl
    · rw [hp1]
      split <;> rfl

theorem approveLoopLegacy_fs_nil :
    ∀ (slots : List PagamentoSemanal) (db : DB),
    (Dashboard.approveLoopLegacy db slots []).2 = [] := by
  intro slots
  induction slots with
  | nil => intro db; rfl
  | cons slot rest ih =>
    intro db
    unfold Dashboard.approveLoopLegacy
    cases hfind : db.trabalhos.find? (fun t => t.id == slot.trabalho_id) with
    | none =>
      simp [takeFault, hfind]
      exact ih _
    | some t =>
      simp [takeFault, hfind]
      exact ih _

theorem conservation_applyOp (db : DB) (o : Op) (h : Conservation db) :
    Conservation (applyOp db o) := by
  cases o with
  | payManually slotId =>
    unfold applyOp
    cases hs : (Dashboard.filledSlots db).find? (fun s => s.id == slotId) with
    | none =>
      simp only [hs]
      exact h
    | some slot =>
      simp only [hs]
      cases hfind : db.trabalhos.find? (fun t => t.id == slot.trabalho_id) with
      | none =>
        simp [Dashboard.handlePayManually, takeFault, hfind]
        exact h
      | some tr =>
        simp [Dashboard.handlePayManually, Dashboard.atualizar_valor_pago,
          Dashboard.handleRemove, takeFault, hfind]
        exact conservation_settle db slot.trabalho_id slot.valor
          ⟨tr.pessoa_id, slot.trabalho_id, slot.pessoa_nome, slot.pessoa_funcao,
            slot.descricao_trabalho, slot.valor⟩ rfl rfl h
  | approve =>
    unfold applyOp Dashboard.handleApprove
    by_cases hempty : (Dashboard.filledSlots db).length = 0
    · simp [hempty]
      exact h
    · by_cases hpre : db.pagamentos_semanais.all
          (fun s => (db.trabalhos.find? (fun t => t.id == s.trabalho_id)).isSome) = true
      · simp [hempty, takeFault, aprovar_ok db hpre]
        exact conservation_settleAll db.pagamentos_semanais db h
      · simp [hempty, takeFault, aprovar_fail db hpre]
        exact h
  | approveLegacy =>
    unfold applyOp Dashboard.handleApproveLegacy
    by_cases hempty : (Dashboard.filledSlots db).length = 0
    · simp [hempty]
      exact h
    · have hfs : (Dashboard.approveLoopLegacy db (Dashboard.filledSlots db) []).2 = [] :=
        approveLoopLegacy_fs_nil (Dashboard.filledSlots db) db
      simp [hempty, takeFault, hfs]
      exact conservation_loopLegacy (Dashboard.filledSlots db) db h
  | removeSlot id =>
    unfold applyOp Dashboard.handleRemove
    simp [takeFault]
    exact h
  | autoFill =>
    unfold applyOp Dashboard.fillEmptySlots Dashboard.preencher_slots_pagamento
    simp [takeFault]
    exact h
  | reorderSlots a b =>
    unfold applyOp Dashboard.handleDragEnd
    by_cases hab : (a == b) = true
    · simp [hab]
      exact h
    · simp only [hab, Bool.false_eq_true, if_false]
      cases h1 : (Dashboard.slotsState db).findIdx?
          (fun s => (s.map (fun x => x.id)).getD 0 == a) with
      | none => simp; exact h
      | some oi =>
        cases h2 : (Dashboard.slotsState db).findIdx?
            (fun s => (s.map (fun x => x.id)).getD 0 == b) with
        | none => simp; exact h
        | some ni =>
          simp [takeFault]
          exact h
  | reorderBacklog a b =>
    unfold applyOp Trabalhos.handleDragEnd
    by_cases hab : (a == b) = true
    · simp [hab]
      exact h
    · simp only [hab, Bool.false_eq_true, if_false]
      cases h1 : (Trabalhos.loadData db).findIdx? (fun t => t.id == a) with
      | none => simp; exact h
      | some oi =>
        cases h2 : (Trabalhos.loadData db).findIdx? (fun t => t.id == b) with
        | none => simp; exact h
        | some ni =>
          simp [takeFault]
          intro u hu
          obtain ⟨t, ht, hid, hp⟩ := applyPrioUpdates_pago _ db.trabalhos u hu
          rw [hp, hid]
          exact h t ht

/-- C3 (amended): in every fault-free run — any sequence of manual
settlements, bulk approvals (RPC-based or legacy), slot removals,
auto-fills and reorders in which every storage write succeeds —
starting from a state satisfying the reconciliation invariant, every
trabalho's `valor_pago` stays equal to the sum of the history amounts
referencing it.  Under storage faults a partially failed settlement
breaks the equality (see the counterexample). -/
theorem C3_money_conservation (db : DB) (ops : List Op) (h : Conservation db) :
    Conservation (runOps db ops) := by
  induction ops generalizing db with
  | nil => exact h
  | cons o rest ih =>
    show Conservation (runOps (applyOp db o) rest)
    exact ih (applyOp db o) (conservation_applyOp db o h)

/-- Witness for C3: a concrete fault-free run of a manual settlement,
an auto-fill and a legacy bulk approval from `dbX`. -/
theorem C3_witness :
    Conservation dbX ∧
    Conservation (runOps dbX [Op.payManually 1, Op.autoFill, Op.approveLegacy]) :=
  ⟨by decide, C3_money_conservation dbX [Op.payManually 1, Op.autoFill, Op.approveLegacy]
    (by decide)⟩

theorem applyPrioUpdates_eq_map :
    ∀ (us : List (Nat × Int)) (rows : List Trabalho),
    Trabalhos.applyPrioUpdates rows us = rows.map (updAll us) := by
  intro us
  induction us with
  | nil =>
    intro rows
    show rows = rows.map (updAll [])
    have : updAll [] = fun t => t := funext fun t => rfl
    rw [this, List.map_id']
  | cons u us ih =>
    intro rows
    show Trabalhos.applyPrioUpdates
        (rows.map (fun t => if t.id == u.1 then { t with prioridade := u.2 } else t)) us
      = rows.map (updAll (u :: us))
    rw [ih, List.map_map]
    rfl

theorem updAll_id : ∀ (us : List (Nat × Int)) (t : Trabalho), (updAll us t).id = t.id := by
  intro us
  induction us with
  | nil => intro t; rfl
  | cons u us ih =>
    intro t
    show (updAll us (if t.id == u.1 then { t with prioridade := u.2 } else t)).id = t.id
    rw [ih]
    split <;> rfl

theorem updAll_concluido :
    ∀ (us : List (Nat × Int)) (t : Trabalho), (updAll us t).concluido = t.concluido := by
  intro us
  induction us with
  | nil => intro t; rfl
  | cons u us ih =>
    intro t
    show (updAll us (if t.id == u.1 then { t with prioridade := u.2 } else t)).concluido
      = t.concluido
    rw [ih]
    split <;> rfl

theorem updAll_notmem :
    ∀ (us : List (Nat × Int)) (t : Trabalho), t.id ∉ us.map Prod.fst → updAll us t = t := by
  intro us
  induction us with
  | nil => intro t _; rfl
  | cons u us ih =>
    intro t hmem
    have hne : ¬ t.id = u.1 := fun h => hmem (by
      rw [List.map_cons, h]
      exact List.mem_cons_self u.1 (us.map Prod.fst))
    have hbeq : (t.id == u.1) = false := beq_eq_false_iff_ne.mpr hne
    show updAll us (if t.id == u.1 then { t with prioridade := u.2 } else t) = t
    rw [hbeq]
    simp only [Bool.false_eq_true, if_false]
    exact ih t (fun h => hmem (List.mem_cons_of_mem _ h))

theorem updAll_assign :
    ∀ (us : List (Nat × Int)) (t : Trabalho) (k : Int),
    (us.map Prod.fst).Nodup → (t.id, k) ∈ us →
    updAll us t = { t with prioridade := k } := by
  intro us
  induction us with
  | nil => intro t k _ hmem; cases hmem
  | cons u us ih =>
    intro t k hnd hmem
    have hndtail : (us.map Prod.fst).Nodup := (List.nodup_cons.mp hnd).2
    have hhead : u.1 ∉ us.map Prod.fst := (List.nodup_cons.mp hnd).1
    rcases List.mem_cons.mp hmem with heq | hmemtail
    · have hid : t.id = u.1 := congrArg Prod.fst heq
      have hk : k = u.2 := congrArg Prod.snd heq
      have hbeq : (t.id == u.1) = true := beq_iff_eq.mpr hid
      show updAll us (if t.id == u.1 then { t with prioridade := u.2 } else t)
        = { t with prioridade := k }
      rw [hbeq, if_pos rfl]
      rw [hk]
      exact updAll_notmem us _ (by
        show ({ t with prioridade := u.2 } : Trabalho).id ∉ us.map Prod.fst
        exact hid ▸ hhead)
    · have hid : ¬ t.id = u.1 := by
        intro h
        exact hhead (h ▸ List.mem_map.mpr ⟨(t.id, k), hmemtail, rfl⟩)
      have hbeq : (t.id == u.1) = false := beq_eq_false_iff_ne.mpr hid
      show updAll us (if t.id == u.1 then { t with prioridade := u.2 } else t)
        = { t with prioridade := k }
      rw [hbeq]
      simp only [Bool.false_eq_true, if_false]
      exact ih t k hndtail hmemtail

theorem map_insertIdx {α β : Type} (f : α → β) :
    ∀ (n : Nat) (a : α) (l : List α),
    (List.insertIdx n a l).map f = List.insertIdx n (f a) (l.map f) := by
  intro n
  induction n with
  | zero =>
    intro a l
    rw [List.insertIdx_zero, List.insertIdx_zero, List.map_cons]
  | succ n ih =>
    intro a l
    cases l with
    | nil => rfl
    | cons x xs =>
      rw [List.insertIdx_succ_cons, List.map_cons, ih, List.map_cons,
        List.insertIdx_succ_cons]

theorem map_eraseIdx {α β : Type} (f : α → β) :
    ∀ (l : List α) (n : Nat), (l.eraseIdx n).map f = (l.map f).eraseIdx n := by
  intro l
  induction l with
  | nil => intro n; rfl
  | cons x xs ih =>
    intro n
    cases n with
    | zero => rfl
    | succ n =>
      rw [List.eraseIdx_cons_succ, List.map_cons, ih, List.map_cons,
        List.eraseIdx_cons_succ]

theorem perm_get_cons_eraseIdx {α : Type} (l : List α) (i : Nat) (h : i < l.length) :
    List.Perm l (l.get ⟨i, h⟩ :: l.eraseIdx i) := by
  rw [List.eraseIdx_eq_take_drop_succ]
  conv_lhs => rw [← List.take_append_drop i l, ← List.getElem_cons_drop l i h]
  simp only [List.get_eq_getElem]
  exact List.perm_middle

theorem arrayMove_of_lt {α : Type} (l : List α) (oi ni : Nat) (h : oi < l.length) :
    arrayMove l oi ni = (l.eraseIdx oi).insertIdx ni (l.get ⟨oi, h⟩) := by
  unfold arrayMove
  rw [List.get?_eq_get h]

theorem arrayMove_perm {α : Type} (l : List α) (oi ni : Nat)
    (hoi : oi < l.length) (hni : ni ≤ l.length - 1) :
    List.Perm (arrayMove l oi ni) l := by
  rw [arrayMove_of_lt l oi ni hoi]
  have h1 : List.Perm (List.insertIdx ni (l.get ⟨oi, hoi⟩) (l.eraseIdx oi))
      (l.get ⟨oi, hoi⟩ :: l.eraseIdx oi) :=
    List.perm_insertIdx _ _ (by rw [List.length_eraseIdx_of_lt hoi]; exact hni)
  exact h1.trans (perm_get_cons_eraseIdx l oi hoi).symm

theorem arrayMove_length {α : Type} (l : List α) (oi ni : Nat)
    (hoi : oi < l.length) (hni : ni ≤ l.length - 1) :
    (arrayMove l oi ni).length = l.length := by
  rw [arrayMove_of_lt l oi ni hoi,
    List.length_insertIdx ni _ (by rw [List.length_eraseIdx_of_lt hoi]; exact hni),
    List.length_eraseIdx_of_lt hoi]
  omega

theorem arrayMove_get_ni {α : Type} (l : List α) (oi ni : Nat)
    (hoi : oi < l.length) (hni : ni ≤ l.length - 1)
    (hlen : ni < (arrayMove l oi ni).length) :
    (arrayMove l oi ni).get ⟨ni, hlen⟩ = l.get ⟨oi, hoi⟩ := by
  have he : arrayMove l oi ni = (l.eraseIdx oi).insertIdx ni (l.get ⟨oi, hoi⟩) :=
    arrayMove_of_lt l oi ni hoi
  have hb : ni ≤ (l.eraseIdx oi).length := by
    rw [List.length_eraseIdx_of_lt hoi]
    exact hni
  have := List.get_insertIdx_self (l.eraseIdx oi) (l.get ⟨oi, hoi⟩) ni hb
  simp only [List.get_eq_getElem] at this ⊢
  rw [List.getElem_of_eq he]
  exact this

theorem arrayMove_map {α β : Type} (f : α → β) (l : List α) (oi ni : Nat)
    (hoi : oi < l.length) :
    (arrayMove l oi ni).map f = arrayMove (l.map f) oi ni := by
  rw [arrayMove_of_lt l oi ni hoi,
    arrayMove_of_lt (l.map f) oi ni (by rw [List.length_map]; exact hoi),
    map_insertIdx, map_eraseIdx]
  congr 1
  simp only [List.get_eq_getElem, List.getElem_map]

theorem arrayMove_eraseIdx {α : Type} (l : List α) (oi ni : Nat) (hoi : oi < l.length) :
    (arrayMove l oi ni).eraseIdx ni = l.eraseIdx oi := by
  rw [arrayMove_of_lt l oi ni hoi, List.eraseIdx_insertIdx]

theorem insertByPrioridade_perm (t : Trabalho) :
    ∀ l : List Trabalho, List.Perm (insertByPrioridade t l) (t :: l) := by
  intro l
  induction l with
  | nil => exact List.Perm.refl _
  | cons u rest ih =>
    unfold insertByPrioridade
    by_cases h : t.prioridade < u.prioridade
    · rw [if_pos h]
    · rw [if_neg h]
      exact (List.Perm.cons u ih).trans (List.Perm.swap t u rest)

theorem sortByPrioridade_perm : ∀ l : List Trabalho, List.Perm (sortByPrioridade l) l := by
  intro l
  induction l with
  | nil => exact List.Perm.refl _
  | cons t rest ih =>
    show List.Perm (insertByPrioridade t (sortByPrioridade rest)) (t :: rest)
    exact (insertByPrioridade_perm t _).trans (List.Perm.cons t ih)

theorem insertByPrioridade_pairwise (t : Trabalho) :
    ∀ l : List Trabalho,
    List.Pairwise (fun a b : Trabalho => a.prioridade ≤ b.prioridade) l →
    List.Pairwise (fun a b : Trabalho => a.prioridade ≤ b.prioridade)
      (insertByPrioridade t l) := by
  intro l
  induction l with
  | nil => intro _; exact List.pairwise_singleton _ _
  | cons u rest ih =>
    intro hp
    obtain ⟨hu, hrest⟩ := List.pairwise_cons.mp hp
    unfold insertByPrioridade
    by_cases h : t.prioridade < u.prioridade
    · rw [if_pos h]
      refine List.pairwise_cons.mpr ⟨?_, hp⟩
      intro b hb
      rcases List.mem_cons.mp hb with rfl | hbrest
      · exact le_of_lt h
      · exact le_trans (le_of_lt h) (hu b hbrest)
    · rw [if_neg h]
      refine List.pairwise_cons.mpr ⟨?_, ih hrest⟩
      intro b hb
      rcases List.mem_cons.mp ((insertByPrioridade_perm t rest).mem_iff.mp hb) with rfl | hbrest
      · exact le_of_not_lt h
      · exact hu b hbrest

theorem sortByPrioridade_pairwise :
    ∀ l : List Trabalho,
    List.Pairwise (fun a b : Trabalho => a.prioridade ≤ b.prioridade) (sortByPrioridade l) := by
  intro l
  induction l with
  | nil => exact List.Pairwise.nil
  | cons t rest ih =>
    show List.Pairwise _ (insertByPrioridade t (sortByPrioridade rest))
    exact insertByPrioridade_pairwise t _ ih

theorem pairwise_lt_of_pairwise_le_nodup (l : List Trabalho)
    (hle : List.Pairwise (fun a b : Trabalho => a.prioridade ≤ b.prioridade) l)
    (hnd : (l.map (fun t => t.prioridade)).Nodup) :
    List.Pairwise (fun a b : Trabalho => a.prioridade < b.prioridade) l := by
  have hne : List.Pairwise (fun a b : Trabalho => a.prioridade ≠ b.prioridade) l :=
    List.pairwise_map.mp hnd
  exact (hle.and hne).imp (fun h => lt_of_le_of_ne h.1 h.2)

theorem withRanks_length (l : List Trabalho) : (withRanks l).length = l.length := by
  unfold withRanks
  rw [List.length_map, List.enum_length]

theorem withRanks_map_id (l : List Trabalho) :
    (withRanks l).map (fun t => t.id) = l.map (fun t => t.id) := by
  unfold withRanks
  rw [List.map_map]
  have hcomp : ((fun t : Trabalho => t.id)
        ∘ fun p : Nat × Trabalho => { p.2 with prioridade := (p.1 : Int) })
      = (fun t : Trabalho => t.id) ∘ Prod.snd :=
    funext fun p => rfl
  rw [hcomp, ← List.map_map, List.enum_map_snd]

theorem withRanks_map_prio (l : List Trabalho) :
    (withRanks l).map (fun t => t.prioridade) = (List.range l.length).map Int.ofNat := by
  unfold withRanks
  rw [List.map_map]
  have hcomp : ((fun t : Trabalho => t.prioridade)
        ∘ fun p : Nat × Trabalho => { p.2 with prioridade := (p.1 : Int) })
      = Int.ofNat ∘ Prod.fst :=
    funext fun p => rfl
  rw [hcomp, ← List.map_map, List.enum_map_fst]

theorem withRanks_pairwise_lt (l : List Trabalho) :
    List.Pairwise (fun a b : Trabalho => a.prioridade < b.prioridade) (withRanks l) := by
  unfold withRanks
  rw [List.pairwise_map]
  have h2 : List.Pairwise (· < ·) (l.enum.map Prod.fst) := by
    rw [List.enum_map_fst]
    exact List.pairwise_lt_range l.length
  have h1 : List.Pairwise (fun p q : Nat × Trabalho => p.1 < q.1) l.enum :=
    List.pairwise_map.mp h2
  exact h1.imp (fun h => by
    show ((_ : Nat) : Int) < ((_ : Nat) : Int)
    exact_mod_cast h)

theorem withRanks_get (l : List Trabalho) (k : Nat) (hk : k < l.length)
    (hk2 : k < (withRanks l).length) :
    (withRanks l).get ⟨k, hk2⟩ = { l.get ⟨k, hk⟩ with prioridade := (k : Int) } := by
  unfold withRanks at hk2 ⊢
  simp only [List.get_eq_getElem, List.getElem_map, List.getElem_enum]

/-- C8: after a backlog reorder (`Trabalhos.handleDragEnd`) that
resolves the dragged item `activeId` at index `oi` and the drop target
`overId` at index `ni` in the pending list, the reloaded pending list
is exactly the `arrayMove`d list re-ranked `0..N-1`: priorities are the
contiguous range `0..N-1` with no gaps or duplicates, the moved item
sits at index `ni`, and the relative order of all other pending items
is preserved. -/
theorem C8_backlog_reorder (db : DB) (activeId overId oi ni : Nat)
    (hne : (activeId == overId) = false)
    (hoi : (Trabalhos.loadData db).findIdx? (fun t => t.id == activeId) = some oi)
    (hni : (Trabalhos.loadData db).findIdx? (fun t => t.id == overId) = some ni)
    (wf : (db.trabalhos.map (fun t => t.id)).Nodup) :
    Trabalhos.loadData (Trabalhos.handleDragEnd db activeId overId []).db
      = withRanks (arrayMove (Trabalhos.loadData db) oi ni) ∧
    (Trabalhos.loadData (Trabalhos.handleDragEnd db activeId overId []).db).map
        (fun t => t.prioridade)
      = (List.range (Trabalhos.loadData db).length).map Int.ofNat ∧
    ((Trabalhos.loadData (Trabalhos.handleDragEnd db activeId overId []).db).map
        (fun t => t.id)).getD ni 0 = activeId ∧
    ((Trabalhos.loadData (Trabalhos.handleDragEnd db activeId overId []).db).map
        (fun t => t.id)).eraseIdx ni
      = ((Trabalhos.loadData db).map (fun t => t.id)).eraseIdx oi := by
  obtain ⟨hoiLt, hpoi, hmin1⟩ := List.findIdx?_eq_some_iff_getElem.mp hoi
  obtain ⟨hniLt, hpni, hmin2⟩ := List.findIdx?_eq_some_iff_getElem.mp hni
  have hniLe : ni ≤ (Trabalhos.loadData db).length - 1 := by omega
  have hpost : (Trabalhos.handleDragEnd db activeId overId []).db
      = { db with trabalhos := (Trabalhos.applyPrioUpdates db.trabalhos
            (Trabalhos.prioUpdates (arrayMove (Trabalhos.loadData db) oi ni))) } := by
    unfold Trabalhos.handleDragEnd
    simp [hne, hoi, hni, takeFault]
  have htrab : (Trabalhos.handleDragEnd db activeId overId []).db.trabalhos
      = db.trabalhos.map
          (updAll (Trabalhos.prioUpdates (arrayMove (Trabalhos.loadData db) oi ni))) := by
    rw [hpost]
    exact applyPrioUpdates_eq_map _ db.trabalhos
  have hpendperm : List.Perm (Trabalhos.loadData db)
      (db.trabalhos.filter (fun t => !t.concluido)) :=
    sortByPrioridade_perm _
  have hpuids : ((db.trabalhos.filter (fun t => !t.concluido)).map (fun t => t.id)).Nodup :=
    ((List.filter_sublist db.trabalhos).map (fun t => t.id)).nodup wf
  have hpendids : ((Trabalhos.loadData db).map (fun t => t.id)).Nodup :=
    ((hpendperm.map (fun t => t.id)).symm).nodup hpuids
  have hreperm : List.Perm (arrayMove (Trabalhos.loadData db) oi ni)
      (Trabalhos.loadData db) :=
    arrayMove_perm _ oi ni hoiLt hniLe
  have hrelen : (arrayMove (Trabalhos.loadData db) oi ni).length
      = (Trabalhos.loadData db).length :=
    arrayMove_length _ oi ni hoiLt hniLe
  have hreids : ((arrayMove (Trabalhos.loadData db) oi ni).map (fun t => t.id)).Nodup :=
    ((hreperm.map (fun t => t.id)).symm).nodup hpendids
  have husfst : (Trabalhos.prioUpdates (arrayMove (Trabalhos.loadData db) oi ni)).map Prod.fst
      = (arrayMove (Trabalhos.loadData db) oi ni).map (fun t => t.id) := by
    unfold Trabalhos.prioUpdates
    rw [List.map_map]
    have hcomp : (Prod.fst ∘ fun p : Nat × Trabalho => (p.2.id, (p.1 : Int)))
        = (fun t : Trabalho => t.id) ∘ Prod.snd :=
      funext fun p => rfl
    rw [hcomp, ← List.map_map, List.enum_map_snd]
  have husnd : ((Trabalhos.prioUpdates (arrayMove (Trabalhos.loadData db) oi ni)).map
      Prod.fst).Nodup := by
    rw [husfst]
    exact hreids
  have hmain : (arrayMove (Trabalhos.loadData db) oi ni).map
        (updAll (Trabalhos.prioUpdates (arrayMove (Trabalhos.loadData db) oi ni)))
      = withRanks (arrayMove (Trabalhos.loadData db) oi ni) := by
    apply List.ext_get
    · rw [List.length_map, withRanks_length]
    · intro k hk1 hk2
      have hkr : k < (arrayMove (Trabalhos.loadData db) oi ni).length := by
        rw [List.length_map] at hk1
        exact hk1
      simp only [List.get_eq_getElem, List.getElem_map]
      have hke : k < (arrayMove (Trabalhos.loadData db) oi ni).enum.length := by
        rw [List.enum_length]
        exact hkr
      have henum : (k, (arrayMove (Trabalhos.loadData db) oi ni).get ⟨k, hkr⟩)
          ∈ (arrayMove (Trabalhos.loadData db) oi ni).enum := by
        have hg : (arrayMove (Trabalhos.loadData db) oi ni).enum.get ⟨k, hke⟩
            = (k, (arrayMove (Trabalhos.loadData db) oi ni).get ⟨k, hkr⟩) := by
          simp [List.getElem_enum]
        rw [← hg]
        exact List.get_mem _ _ hke
      have humem : (((arrayMove (Trabalhos.loadData db) oi ni).get ⟨k, hkr⟩).id, (k : Int))
          ∈ Trabalhos.prioUpdates (arrayMove (Trabalhos.loadData db) oi ni) := by
        unfold Trabalhos.prioUpdates
        exact List.mem_map.mpr
          ⟨(k, (arrayMove (Trabalhos.loadData db) oi ni).get ⟨k, hkr⟩), henum, rfl⟩
      have hwg := withRanks_get (arrayMove (Trabalhos.loadData db) oi ni) k hkr hk2
      simp only [List.get_eq_getElem] at hwg
      rw [hwg]
      have hupd := updAll_assign (Trabalhos.prioUpdates
          (arrayMove (Trabalhos.loadData db) oi ni))
        ((arrayMove (Trabalhos.loadData db) oi ni).get ⟨k, hkr⟩) (k : Int) husnd humem
      simp only [List.get_eq_getElem] at hupd
      exact hupd
  have hfiltermap : (db.trabalhos.map
        (updAll (Trabalhos.prioUpdates (arrayMove (Trabalhos.loadData db) oi ni)))).filter
          (fun t => !t.concluido)
      = (db.trabalhos.filter (fun t => !t.concluido)).map
          (updAll (Trabalhos.prioUpdates (arrayMove (Trabalhos.loadData db) oi ni))) := by
    rw [List.filter_map]
    have hcomp : ((fun t : Trabalho => !t.concluido)
          ∘ updAll (Trabalhos.prioUpdates (arrayMove (Trabalhos.loadData db) oi ni)))
        = fun t : Trabalho => !t.concluido :=
      funext fun t => by
        show (!(updAll _ t).concluido) = !t.concluido
        rw [updAll_concluido]
    rw [hcomp]
  have hld : Trabalhos.loadData (Trabalhos.handleDragEnd db activeId overId []).db
      = sortByPrioridade ((db.trabalhos.filter (fun t => !t.concluido)).map
          (updAll (Trabalhos.prioUpdates (arrayMove (Trabalhos.loadData db) oi ni)))) := by
    show sortByPrioridade ((Trabalhos.handleDragEnd db activeId overId
        []).db.trabalhos.filter (fun t => !t.concluido)) = _
    rw [htrab, hfiltermap]
  have hchain : List.Perm
      (sortByPrioridade ((db.trabalhos.filter (fun t => !t.concluido)).map
        (updAll (Trabalhos.prioUpdates (arrayMove (Trabalhos.loadData db) oi ni)))))
      (withRanks (arrayMove (Trabalhos.loadData db) oi ni)) := by
    have h1 := sortByPrioridade_perm ((db.trabalhos.filter (fun t => !t.concluido)).map
      (updAll (Trabalhos.prioUpdates (arrayMove (Trabalhos.loadData db) oi ni))))
    have h2 : List.Perm
        ((db.trabalhos.filter (fun t => !t.concluido)).map
          (updAll (Trabalhos.prioUpdates (arrayMove (Trabalhos.loadData db) oi ni))))
        ((Trabalhos.loadData db).map
          (updAll (Trabalhos.prioUpdates (arrayMove (Trabalhos.loadData db) oi ni)))) :=
      (hpendperm.map _).symm
    have h3 : List.Perm
        ((Trabalhos.loadData db).map
          (updAll (Trabalhos.prioUpdates (arrayMove (Trabalhos.loadData db) oi ni))))
        ((arrayMove (Trabalhos.loadData db) oi ni).map
          (updAll (Trabalhos.prioUpdates (arrayMove (Trabalhos.loadData db) oi ni)))) :=
      (hreperm.map _).symm
    rw [hmain] at h3
    exact (h1.trans h2).trans h3
  have hprio_nodup : ((sortByPrioridade ((db.trabalhos.filter (fun t => !t.concluido)).map
        (updAll (Trabalhos.prioUpdates (arrayMove (Trabalhos.loadData db) oi ni))))).map
          (fun t => t.prioridade)).Nodup := by
    have hwr : ((withRanks (arrayMove (Trabalhos.loadData db) oi ni)).map
        (fun t => t.prioridade)).Nodup := by
      rw [withRanks_map_prio]
      exact (List.nodup_range _).map Int.ofNat_injective
    exact ((hchain.map (fun t => t.prioridade)).symm).nodup hwr
  have hsortedlt := pairwise_lt_of_pairwise_le_nodup _
    (sortByPrioridade_pairwise ((db.trabalhos.filter (fun t => !t.concluido)).map
      (updAll (Trabalhos.prioUpdates (arrayMove (Trabalhos.loadData db) oi ni)))))
    hprio_nodup
  have hwrlt := withRanks_pairwise_lt (arrayMove (Trabalhos.loadData db) oi ni)
  haveI : IsAntisymm Trabalho (fun a b : Trabalho => a.prioridade < b.prioridade) :=
    ⟨fun a b h1 h2 => absurd (lt_trans h1 h2) (lt_irrefl _)⟩
  have heq1 := List.eq_of_perm_of_sorted hchain hsortedlt hwrlt
  have hC1 : Trabalhos.loadData (Trabalhos.handleDragEnd db activeId overId []).db
      = withRanks (arrayMove (Trabalhos.loadData db) oi ni) := hld.trans heq1
  refine ⟨hC1, ?_, ?_, ?_⟩
  · rw [hC1, withRanks_map_prio, hrelen]
  · rw [hC1, withRanks_map_id]
    have hniRe : ni < (arrayMove (Trabalhos.loadData db) oi ni).length := by omega
    have hgetd : ((arrayMove (Trabalhos.loadData db) oi ni).map (fun t => t.id)).getD ni 0
        = ((arrayMove (Trabalhos.loadData db) oi ni).get ⟨ni, hniRe⟩).id := by
      rw [List.getD, List.get?_eq_getElem?, List.getElem?_map,
        List.getElem?_eq_getElem hniRe]
      rfl
    rw [hgetd, arrayMove_get_ni (Trabalhos.loadData db) oi ni hoiLt hniLe hniRe]
    have hb : (((Trabalhos.loadData db).get ⟨oi, hoiLt⟩).id == activeId) = true := by
      simpa using hpoi
    exact beq_iff_eq.mp hb
  · rw [hC1, withRanks_map_id, arrayMove_map (fun t => t.id) (Trabalhos.loadData db) oi ni hoiLt,
      arrayMove_eraseIdx ((Trabalhos.loadData db).map (fun t => t.id)) oi ni
        (by rw [List.length_map]; exact hoiLt)]

/-- Witness for C8: in the three-item backlog of `dbZ`, move item 3
(rank 2) onto item 1 (rank 0). -/
theorem C8_witness :
    Trabalhos.loadData (Trabalhos.handleDragEnd dbZ 3 1 []).db
      = withRanks (arrayMove (Trabalhos.loadData dbZ) 2 0) ∧
    (Trabalhos.loadData (Trabalhos.handleDragEnd dbZ 3 1 []).db).map (fun t => t.prioridade)
      = (List.range (Trabalhos.loadData dbZ).length).map Int.ofNat ∧
    ((Trabalhos.loadData (Trabalhos.handleDragEnd dbZ 3 1 []).db).map (fun t => t.id)).getD 0 0
      = 3 ∧
    ((Trabalhos.loadData (Trabalhos.handleDragEnd dbZ 3 1 []).db).map (fun t => t.id)).eraseIdx 0
      = ((Trabalhos.loadData dbZ).map (fun t => t.id)).eraseIdx 2 :=
  C8_backlog_reorder dbZ 3 1 2 0 (by decide) (by decide) (by decide) (by decide)

theorem map_zipWith_right {α β γ δ : Type} (g : γ → δ) (f : α → β → γ) (h : β → δ)
    (hf : ∀ a b, g (f a b) = h b) :
    ∀ (as : List α) (bs : List β), bs.length ≤ as.length →
    (List.zipWith f as bs).map g = bs.map h := by
  intro as
  induction as with
  | nil =>
    intro bs hb
    cases bs with
    | nil => rfl
    | cons b bs => simp at hb
  | cons a as ih =>
    intro bs hb
    cases bs with
    | nil => rfl
    | cons b bs =>
      rw [List.zipWith_cons_cons, List.map_cons, List.map_cons, hf,
        ih bs (by simpa using hb)]

theorem map_zipWith_left {α β γ δ : Type} (g : γ → δ) (f : α → β → γ) (h : α → δ)
    (hf : ∀ a b, g (f a b) = h a) :
    ∀ (as : List α) (bs : List β),
    (List.zipWith f as bs).map g = (as.take bs.length).map h := by
  intro as
  induction as with
  | nil =>
    intro bs
    simp
  | cons a as ih =>
    intro bs
    cases bs with
    | nil => rfl
    | cons b bs =>
      rw [List.zipWith_cons_cons, List.map_cons, hf, List.length_cons, List.take_succ_cons,
        List.map_cons, ih bs]

theorem mem_zipWith {α β γ : Type} (f : α → β → γ) :
    ∀ (as : List α) (bs : List β) (c : γ), c ∈ List.zipWith f as bs →
    ∃ a b, a ∈ as ∧ b ∈ bs ∧ c = f a b := by
  intro as
  induction as with
  | nil =>
    intro bs c hc
    simp at hc
  | cons a as ih =>
    intro bs c hc
    cases bs with
    | nil => simp at hc
    | cons b bs =>
      rw [List.zipWith_cons_cons] at hc
      rcases List.mem_cons.mp hc with rfl | hmem
      · exact ⟨a, b, List.mem_cons_self a as, List.mem_cons_self b bs, rfl⟩
      · obtain ⟨a2, b2, ha, hb, rfl⟩ := ih bs c hmem
        exact ⟨a2, b2, List.mem_cons_of_mem a ha, List.mem_cons_of_mem b hb, rfl⟩

/-- C7 (spec-modelled): Auto-Fill creates one slot per empty board
position, pulling pending work items not already slotted from the
backlog in strictly ascending priority-rank order, until the positions
or the backlog run out (the new-slot count is the minimum of the two);
each new slot's amount is the item's full remaining balance
`valor_total - valor_pago` at fill time; an item bound to an existing
slot is never pulled, and no item is pulled into two new slots. -/
theorem C7_autofill (db : DB)
    (hids : (db.trabalhos.map (fun t => t.id)).Nodup)
    (hprio : ((db.trabalhos.filter (fun t => !t.concluido)).map
      (fun t => t.prioridade)).Nodup) :
    (Dashboard.preencher_slots_pagamento db).pagamentos_semanais
      = db.pagamentos_semanais ++ Dashboard.newSlotsFor db ∧
    (Dashboard.newSlotsFor db).length
      = min (Dashboard.emptyPositions db).length (Dashboard.backlogCandidates db).length ∧
    (Dashboard.newSlotsFor db).map (fun s => s.trabalho_id)
      = ((Dashboard.backlogCandidates db).take
          (Dashboard.emptyPositions db).length).map (fun t => t.id) ∧
    List.Pairwise (fun a b : Int => a < b)
      (((Dashboard.backlogCandidates db).take
        (Dashboard.emptyPositions db).length).map (fun t => t.prioridade)) ∧
    (∀ s ∈ Dashboard.newSlotsFor db, ∃ t ∈ db.trabalhos,
      t.id = s.trabalho_id ∧ s.valor = t.valor_total - t.valor_pago ∧ t.concluido = false ∧
      s.trabalho_id ∉ db.pagamentos_semanais.map (fun s2 => s2.trabalho_id)) ∧
    ((Dashboard.newSlotsFor db).map (fun s => s.trabalho_id)).Nodup ∧
    (Dashboard.newSlotsFor db).map (fun s => s.posicao)
      = ((Dashboard.emptyPositions db).take
          (Dashboard.newSlotsFor db).length).map Int.ofNat := by
  have hsubc : List.Sublist
      (db.trabalhos.filter (fun t => (!t.concluido) &&
        (!((db.pagamentos_semanais.map (fun s => s.trabalho_id)).contains t.id))))
      (db.trabalhos.filter (fun t => !t.concluido)) := by
    rw [← List.filter_filter]
    exact List.Sublist.filter _ (List.filter_sublist db.trabalhos)
  have hcand_perm : List.Perm (Dashboard.backlogCandidates db)
      (db.trabalhos.filter (fun t => (!t.concluido) &&
        (!((db.pagamentos_semanais.map (fun s => s.trabalho_id)).contains t.id)))) :=
    sortByPrioridade_perm _
  have hcand_prio_nodup : ((Dashboard.backlogCandidates db).map
      (fun t => t.prioridade)).Nodup := by
    have h1 := (hsubc.map (fun t => t.prioridade)).nodup hprio
    exact ((hcand_perm.map (fun t => t.prioridade)).symm).nodup h1
  have hcand_ids_nodup : ((Dashboard.backlogCandidates db).map (fun t => t.id)).Nodup := by
    have h1 : ((db.trabalhos.filter (fun t => (!t.concluido) &&
        (!((db.pagamentos_semanais.map (fun s => s.trabalho_id)).contains t.id)))).map
          (fun t => t.id)).Nodup :=
      ((List.filter_sublist db.trabalhos).map (fun t => t.id)).nodup hids
    exact ((hcand_perm.map (fun t => t.id)).symm).nodup h1
  have hcand_lt : List.Pairwise (fun a b : Trabalho => a.prioridade < b.prioridade)
      (Dashboard.backlogCandidates db) :=
    pairwise_lt_of_pairwise_le_nodup _ (sortByPrioridade_pairwise _) hcand_prio_nodup
  have hchlen : ((Dashboard.backlogCandidates db).take
      (Dashboard.emptyPositions db).length).length ≤ (Dashboard.emptyPositions db).length := by
    rw [List.length_take]
    exact min_le_left _ _
  have h3 : (Dashboard.newSlotsFor db).map (fun s => s.trabalho_id)
      = ((Dashboard.backlogCandidates db).take
          (Dashboard.emptyPositions db).length).map (fun t => t.id) :=
    map_zipWith_right (fun s : PagamentoSemanal => s.trabalho_id)
      (fun pos t => Dashboard.mkSlot db (Dashboard.freshSlotId db + pos) pos t)
      (fun t : Trabalho => t.id) (fun a b => rfl) (Dashboard.emptyPositions db)
      ((Dashboard.backlogCandidates db).take (Dashboard.emptyPositions db).length) hchlen
  refine ⟨rfl, ?_, h3, ?_, ?_, ?_, ?_⟩
  · show (List.zipWith _ (Dashboard.emptyPositions db)
        ((Dashboard.backlogCandidates db).take (Dashboard.emptyPositions db).length)).length = _
    rw [List.length_zipWith, List.length_take]
    omega
  · have htake : List.Pairwise (fun a b : Trabalho => a.prioridade < b.prioridade)
        ((Dashboard.backlogCandidates db).take (Dashboard.emptyPositions db).length) :=
      List.Pairwise.sublist (List.take_sublist _ _) hcand_lt
    exact List.pairwise_map.mpr htake
  · intro s hs
    obtain ⟨pos, t, hpos, ht, rfl⟩ := mem_zipWith _ _ _ s hs
    have htc : t ∈ Dashboard.backlogCandidates db := List.mem_of_mem_take ht
    have htf : t ∈ db.trabalhos.filter (fun t => (!t.concluido) &&
        (!((db.pagamentos_semanais.map (fun s => s.trabalho_id)).contains t.id))) :=
      hcand_perm.mem_iff.mp htc
    obtain ⟨htmem, hpred⟩ := List.mem_filter.mp htf
    simp only [Bool.and_eq_true, Bool.not_eq_true'] at hpred
    have hnotslot : ¬ t.id ∈ db.pagamentos_semanais.map
        (fun s2 : PagamentoSemanal => s2.trabalho_id) := by
      intro hmem
      have hc2 : ((db.pagamentos_semanais.map
          (fun s2 : PagamentoSemanal => s2.trabalho_id)).contains t.id) = true :=
        List.elem_iff.mpr hmem
      rw [hpred.2] at hc2
      exact Bool.noConfusion hc2
    exact ⟨t, htmem, rfl, rfl, hpred.1, hnotslot⟩
  · rw [h3]
    exact ((List.take_sublist (Dashboard.emptyPositions db).length
      (Dashboard.backlogCandidates db)).map (fun t : Trabalho => t.id)).nodup hcand_ids_nodup
  · have hlen : (Dashboard.newSlotsFor db).length
        = ((Dashboard.backlogCandidates db).take
            (Dashboard.emptyPositions db).length).length := by
      show (List.zipWith _ _ _).length = _
      rw [List.length_zipWith, List.length_take, ← min_assoc, min_self]
    have hleft := map_zipWith_left (fun s : PagamentoSemanal => s.posicao)
      (fun pos t => Dashboard.mkSlot db (Dashboard.freshSlotId db + pos) pos t)
      (fun pos => (pos : Int)) (fun a b => rfl) (Dashboard.emptyPositions db)
      ((Dashboard.backlogCandidates db).take (Dashboard.emptyPositions db).length)
    rw [hlen]
    exact hleft

/-- Witness for C7 at `dbZ` (three pending items, empty board). -/
theorem C7_witness :
    (Dashboard.preencher_slots_pagamento dbZ).pagamentos_semanais
      = dbZ.pagamentos_semanais ++ Dashboard.newSlotsFor dbZ ∧
    (Dashboard.newSlotsFor dbZ).length
      = min (Dashboard.emptyPositions dbZ).length (Dashboard.backlogCandidates dbZ).length ∧
    (Dashboard.newSlotsFor dbZ).map (fun s => s.trabalho_id)
      = ((Dashboard.backlogCandidates dbZ).take
          (Dashboard.emptyPositions dbZ).length).map (fun t => t.id) ∧
    List.Pairwise (fun a b : Int => a < b)
      (((Dashboard.backlogCandidates dbZ).take
        (Dashboard.emptyPositions dbZ).length).map (fun t => t.prioridade)) ∧
    (∀ s ∈ Dashboard.newSlotsFor dbZ, ∃ t ∈ dbZ.trabalhos,
      t.id = s.trabalho_id ∧ s.valor = t.valor_total - t.valor_pago ∧ t.concluido = false ∧
      s.trabalho_id ∉ dbZ.pagamentos_semanais.map (fun s2 => s2.trabalho_id)) ∧
    ((Dashboard.newSlotsFor dbZ).map (fun s => s.trabalho_id)).Nodup ∧
    (Dashboard.newSlotsFor dbZ).map (fun s => s.posicao)
      = ((Dashboard.emptyPositions dbZ).take
          (Dashboard.newSlotsFor dbZ).length).map Int.ofNat :=
  C7_autofill dbZ (by decide) (by decide)
